import Mathlib

/-!
Verification of the text normalization, classification and document-assembly
engine of the pauta generator (source file docx_maker.py).

Strings are modelled as lists of unicode codepoints (Lean Char), which is
faithful to Python 3 str semantics.  The source file itself stores many of
its literals in mojibake form (UTF-8 read as Latin-1); those literals are
reproduced here byte-for-byte as they exist at Python runtime.
-/

namespace Pauta

/-- Python strings are sequences of codepoints; we model them as lists of Char. -/
abbrev Str := List Char

/-- Shorthand turning a Lean string literal into the codepoint-list model. -/
def S (s : String) : Str := s.data

/-- Whitespace class used by Python's regex escape class and str.strip for the
characters that occur in this pipeline (space, tab, newline, vertical tab,
form feed, carriage return, next-line, no-break space). -/
def isSpaceCh (c : Char) : Bool :=
  c = ' ' || c = '\t' || c = '\n' || c.val = 0x0B || c.val = 0x0C ||
  c = '\r' || c.val = 0x1C || c.val = 0x1D || c.val = 0x1E || c.val = 0x1F ||
  c.val = 0x85 || c.val = 0xA0

/-- ASCII digit test. -/
def isDigitCh (c : Char) : Bool := 0x30 ≤ c.val ∧ c.val ≤ 0x39

/-- Numeric value of an ASCII digit character. -/
def digitVal (c : Char) : Nat := c.val.toNat - 0x30

/-- ASCII letter test. -/
def isAsciiAlpha (c : Char) : Bool :=
  (0x41 ≤ c.val ∧ c.val ≤ 0x5A) ∨ (0x61 ≤ c.val ∧ c.val ≤ 0x7A)

/-- Python str.lower for the ASCII and Latin-1 letters used by this code
(uppercase Latin-1 letters map to lowercase by adding 32, excluding the
multiplication sign 0xD7). -/
def lowerCh (c : Char) : Char :=
  if 0x41 ≤ c.val ∧ c.val ≤ 0x5A then Char.ofNat (c.val.toNat + 32)
  else if 0xC0 ≤ c.val ∧ c.val ≤ 0xDE ∧ c.val ≠ 0xD7 then Char.ofNat (c.val.toNat + 32)
  else c

/-- Python str.upper for the ASCII and Latin-1 letters used by this code. -/
def upperCh (c : Char) : Char :=
  if 0x61 ≤ c.val ∧ c.val ≤ 0x7A then Char.ofNat (c.val.toNat - 32)
  else if 0xE0 ≤ c.val ∧ c.val ≤ 0xFE ∧ c.val ≠ 0xF7 then Char.ofNat (c.val.toNat - 32)
  else c

def toLowerStr (s : Str) : Str := s.map lowerCh

def toUpperStr (s : Str) : Str := s.map upperCh

/-- Case-insensitive character comparison mirroring re.IGNORECASE on the
Latin-1 letter range used by the keyword catalog. -/
def chEqCI (a b : Char) : Bool := lowerCh a = lowerCh b

/-- NFKD-decompose-then-ASCII-encode applied to one character, mirroring
unicodedata.normalize("NFKD", s).encode("ascii", "ignore") for the characters
that occur in this code base: ASCII passes through, Latin-1 letters lose their
accents, the feminine and masculine ordinal signs decompose to letters, and
every other non-ASCII character (including the C1 control range produced by
mojibake) is dropped. -/
def accentFoldCh (c : Char) : List Char :=
  if c.val ≤ 0x7F then [c]
  else
    let v := c.val.toNat
    if v = 0xAA then ['a']
    else if v = 0xBA then ['o']
    else if v = 0xB2 then ['2']
    else if v = 0xB3 then ['3']
    else if v = 0xB9 then ['1']
    else if 0xC0 ≤ v ∧ v ≤ 0xC5 then ['A']
    else if v = 0xC7 then ['C']
    else if 0xC8 ≤ v ∧ v ≤ 0xCB then ['E']
    else if 0xCC ≤ v ∧ v ≤ 0xCF then ['I']
    else if v = 0xD1 then ['N']
    else if 0xD2 ≤ v ∧ v ≤ 0xD6 then ['O']
    else if 0xD9 ≤ v ∧ v ≤ 0xDC then ['U']
    else if v = 0xDD then ['Y']
    else if 0xE0 ≤ v ∧ v ≤ 0xE5 then ['a']
    else if v = 0xE7 then ['c']
    else if 0xE8 ≤ v ∧ v ≤ 0xEB then ['e']
    else if 0xEC ≤ v ∧ v ≤ 0xEF then ['i']
    else if v = 0xF1 then ['n']
    else if 0xF2 ≤ v ∧ v ≤ 0xF6 then ['o']
    else if 0xF9 ≤ v ∧ v ≤ 0xFC then ['u']
    else if v = 0xFD ∨ v = 0xFF then ['y']
    else []

/-- The source helper strip accents lower: NFKD fold to ASCII then lowercase. -/
def stripAccentsLower (s : Str) : Str :=
  toLowerStr (s.flatMap accentFoldCh)

/-- Drop leading whitespace. -/
def dropLeadingWs (s : Str) : Str := s.dropWhile isSpaceCh

/-- Python str.strip: drop leading and trailing whitespace. -/
def stripWs (s : Str) : Str :=
  ((s.dropWhile isSpaceCh).reverse.dropWhile isSpaceCh).reverse

/-- Helper for whitespace collapsing: true when the string starts inside a run. -/
def wsCollapse : Str → Bool → Str
  | [], _ => []
  | c :: t, inRun =>
      if isSpaceCh c then
        if inRun then wsCollapse t true else ' ' :: wsCollapse t true
      else c :: wsCollapse t false

/-- The source helper ws: re.sub whitespace-runs to a single space, then strip.
None and NaN inputs are modelled as the empty string by callers. -/
def wsNorm (s : Str) : Str := stripWs (wsCollapse s false)

/-- Substring containment, mirroring the Python in operator on str. -/
def isSubAt : Str → Str → Bool
  | [], _ => true
  | _ :: _, [] => false
  | a :: as1, b :: bs => a = b && isSubAt as1 bs

def containsSub (hay needle : Str) : Bool :=
  match hay with
  | [] => needle = []
  | _ :: t => isSubAt needle hay || containsSub t needle

/-- Python str.startswith. -/
def startsWithStr (s pre : Str) : Bool := isSubAt pre s

/-- C0/C1 control character class of the source regex CTRL CHARS
(00-08, 0B, 0C, 0E-1F, 7F-9F). -/
def isCtrlCh (c : Char) : Bool :=
  c.val ≤ 0x08 || c.val = 0x0B || c.val = 0x0C ||
  (0x0E ≤ c.val ∧ c.val ≤ 0x1F) || (0x7F ≤ c.val ∧ c.val ≤ 0x9F)

/-- Codepoints in the 0x80..0x9F band: the trigger for the Latin-1 to UTF-8
re-decoding step of the mojibake fixer. -/
def isC1Band (c : Char) : Bool := 0x80 ≤ c.val ∧ c.val ≤ 0x9F

/-!  CP1252 machinery.  The source builds a char-to-byte dictionary by decoding
every byte with cp1252, falling back to latin-1 for the five undefined bytes
(0x81, 0x8D, 0x8F, 0x90, 0x9D).  Bytes 0x00-0x7F and 0xA0-0xFF decode to the
identical codepoint; bytes 0x80-0x9F decode to the CP1252 punctuation block. -/

/-- Codepoint of the cp1252 decoding of a byte in 0x80..0x9F (with the latin-1
fallback for the five undefined bytes). -/
def cp1252HighChar (b : Nat) : Nat :=
  if b = 0x80 then 0x20AC else if b = 0x81 then 0x81
  else if b = 0x82 then 0x201A else if b = 0x83 then 0x0192
  else if b = 0x84 then 0x201E else if b = 0x85 then 0x2026
  else if b = 0x86 then 0x2020 else if b = 0x87 then 0x2021
  else if b = 0x88 then 0x02C6 else if b = 0x89 then 0x2030
  else if b = 0x8A then 0x0160 else if b = 0x8B then 0x2039
  else if b = 0x8C then 0x0152 else if b = 0x8D then 0x8D
  else if b = 0x8E then 0x017D else if b = 0x8F then 0x8F
  else if b = 0x90 then 0x90 else if b = 0x91 then 0x2018
  else if b = 0x92 then 0x2019 else if b = 0x93 then 0x201C
  else if b = 0x94 then 0x201D else if b = 0x95 then 0x2022
  else if b = 0x96 then 0x2013 else if b = 0x97 then 0x2014
  else if b = 0x98 then 0x02DC else if b = 0x99 then 0x2122
  else if b = 0x9A then 0x0161 else if b = 0x9B then 0x203A
  else if b = 0x9C then 0x0153 else if b = 0x9D then 0x9D
  else if b = 0x9E then 0x017E else 0x0178

/-- Inverse dictionary lookup CP1252 CHAR TO BYTE: the byte whose cp1252
decoding is the given character, when one exists. -/
def cp1252ByteOf (c : Char) : Option Nat :=
  let v := c.val.toNat
  if v ≤ 0x7F then some v
  else if 0xA0 ≤ v ∧ v ≤ 0xFF then some v
  else
    ((List.range 0x20).map (· + 0x80)).find? (fun b => cp1252HighChar b = v)

/-- One pass of the source repair mojibake pairs: a lead character 0xC3 or 0xC2
followed by a character whose cp1252 byte lies in the UTF-8 continuation range
0x80..0xBF is replaced by the decoded two-byte UTF-8 character. -/
def repairPairs : Str → Str
  | [] => []
  | [c] => [c]
  | c :: nxt :: rest =>
      if c.val = 0xC3 ∨ c.val = 0xC2 then
        match cp1252ByteOf nxt with
        | some b =>
            if 0x80 ≤ b ∧ b ≤ 0xBF then
              let lead : Nat := if c.val = 0xC3 then 0xC0 else 0x80
              Char.ofNat (lead + (b - 0x80)) :: repairPairs rest
            else c :: repairPairs (nxt :: rest)
        | none => c :: repairPairs (nxt :: rest)
      else c :: repairPairs (nxt :: rest)

/-- Strict UTF-8 decoding of a byte list, mirroring bytes.decode("utf-8"):
rejects overlong forms, surrogates, and codepoints beyond 0x10FFFF. -/
def decodeUtf8 : List Nat → Option (List Char)
  | [] => some []
  | b :: rest =>
      if b ≤ 0x7F then (decodeUtf8 rest).map (Char.ofNat b :: ·)
      else if 0xC2 ≤ b ∧ b ≤ 0xDF then
        match rest with
        | b2 :: rest2 =>
            if 0x80 ≤ b2 ∧ b2 ≤ 0xBF then
              (decodeUtf8 rest2).map (Char.ofNat ((b - 0xC0) * 64 + (b2 - 0x80)) :: ·)
            else none
        | _ => none
      else if 0xE0 ≤ b ∧ b ≤ 0xEF then
        match rest with
        | b2 :: b3 :: rest3 =>
            let lo2 : Nat := if b = 0xE0 then 0xA0 else 0x80
            let hi2 : Nat := if b = 0xED then 0x9F else 0xBF
            if (lo2 ≤ b2 ∧ b2 ≤ hi2) ∧ (0x80 ≤ b3 ∧ b3 ≤ 0xBF) then
              (decodeUtf8 rest3).map
                (Char.ofNat ((b - 0xE0) * 4096 + (b2 - 0x80) * 64 + (b3 - 0x80)) :: ·)
            else none
        | _ => none
      else if 0xF0 ≤ b ∧ b ≤ 0xF4 then
        match rest with
        | b2 :: b3 :: b4 :: rest4 =>
            let lo2 : Nat := if b = 0xF0 then 0x90 else 0x80
            let hi2 : Nat := if b = 0xF4 then 0x8F else 0xBF
            if (lo2 ≤ b2 ∧ b2 ≤ hi2) ∧ (0x80 ≤ b3 ∧ b3 ≤ 0xBF) ∧ (0x80 ≤ b4 ∧ b4 ≤ 0xBF) then
              (decodeUtf8 rest4).map
                (Char.ofNat ((b - 0xF0) * 262144 + (b2 - 0x80) * 4096 +
                  (b3 - 0x80) * 64 + (b4 - 0x80)) :: ·)
            else none
        | _ => none
      else none

/-- s.encode("latin-1").decode("utf-8") as a partial operation: fails when a
codepoint exceeds 0xFF or the resulting bytes are not valid UTF-8. -/
def reencodeLatin1Utf8 (s : Str) : Option Str :=
  if s.all (fun c => c.val ≤ 0xFF) then decodeUtf8 (s.map (fun c => c.val.toNat))
  else none

/-- The up-to-three-pass loop of fix mojibake, exactly as written: each pass
applies repairPairs and stops early on a fixed point. -/
def mojibakeLoop (t : Str) : Str :=
  if repairPairs t = t then t
  else if repairPairs (repairPairs t) = repairPairs t then repairPairs t
  else repairPairs (repairPairs (repairPairs t))

/-- The source fix mojibake: optional Latin-1 to UTF-8 re-decode when C1-band
codepoints are present, then the bounded repair loop. -/
def fixMojibake (text : Str) : Str :=
  mojibakeLoop (if text.any isC1Band then (reencodeLatin1Utf8 text).getD text else text)

/-- The source clean docx text: run the mojibake fixer when control characters
or the telltale lead characters are present, then strip control characters. -/
def cleanDocxText (text : Str) : Str :=
  if text = [] then []
  else
    (if text.any isCtrlCh || containsSub text [Char.ofNat 0xC3] ||
        containsSub text [Char.ofNat 0xC2] || containsSub text [Char.ofNat 0xFFFD] then
      fixMojibake text
    else text).filter (fun c => ¬ isCtrlCh c)

/-!  Keyword catalog.  The literals below are copied byte-for-byte from the
source file, which stores them in mojibake form; the source then reassigns
KEYWORDS ORDERED to the mojibake-fixed list, which we mirror. -/

/-- The raw keyword catalog literal, in the priority order of the source. -/
def rawKeywordsOrdered : List Str :=
  [S "Embargo de DeclaraÃ§Ã£o",
   S "Embargos de DeclaraÃ§Ã£o",
   S "Recurso",
   S "Recursos",
   S "Pedido de RevisÃ£o",
   S "Acompanhamento",
   S "RepresentaÃ§Ã£o",
   S "DenÃºncia",
   S "InspeÃ§Ã£o",
   S "Auditoria",
   S "Auditoria Programada",
   S "Auditoria Operacional",
   S "Auditoria Extraplano",
   S "Auditoria Transversal",
   S "PetiÃ§Ã£o",
   S "PregÃ£o Presencial",
   S "PregÃ£o EletrÃ´nico",
   S "Edital de Chamamento PÃºblico",
   S "ConcorrÃªncia",
   S "ConcorrÃªncia PÃºblica",
   S "Tomada de PreÃ§os",
   S "ConvÃªnio",
   S "Contrato",
   S "Contrato Emergencial",
   S "Contrato de GestÃ£o",
   S "Contrato de GestÃ£o Emergencial",
   S "CertidÃµes",
   S "Termo Aditivo",
   S "TA",
   S "TAs",
   S "Termo de ColaboraÃ§Ã£o",
   S "Termo de RerratificaÃ§Ã£o",
   S "Acompanhamento - ExecuÃ§Ã£o Contratual",
   S "(Itens englobados -   a   )",
   S "Para proferir voto de desempate"]

/-- KEYWORDS ORDERED after the module-level mojibake fix pass of the source. -/
def keywordsOrdered : List Str := rawKeywordsOrdered.map fixMojibake

/-- The source norm keyword label: accent-fold and lowercase, remove
parentheses, collapse whitespace, strip. -/
def normKeywordLabel (term : Str) : Str :=
  stripWs (wsCollapse ((stripAccentsLower (wsNorm term)).filter
    (fun c => c ≠ '(' ∧ c ≠ ')')) false)

/-- Normalized labels of the two special always-bold phrases, which are
excluded from the primary classification catalog. -/
def specialKeywordLabels : List Str :=
  [normKeywordLabel (S "Para proferir voto de desempate"),
   normKeywordLabel (S "(Itens englobados -   a   )")]

/-- PRIMARY KEYWORDS: the catalog minus the two special phrases. -/
def primaryKeywords : List Str :=
  keywordsOrdered.filter (fun k => ¬ specialKeywordLabels.contains (normKeywordLabel k))

/-!  Pattern compilation.  The source builds, for each keyword, a regex by
escaping the keyword and replacing escaped spaces by one-or-more-whitespace
and escaped ASCII hyphens by optional-whitespace hyphen-class
optional-whitespace (hyphen class: ASCII hyphen and U+2010..U+2015), matched
case-insensitively.  We compile a keyword to a token list with the same
semantics. -/

inductive Tok where
  | lit : Char → Tok
  | ws : Tok
  | hyph : Tok
deriving DecidableEq

/-- Build keyword pattern: space to a whitespace-run token, hyphen to a
hyphen token, everything else a case-insensitive literal. -/
def compileKeyword (term : Str) : List Tok :=
  term.map (fun c => if c = ' ' then Tok.ws else if c = '-' then Tok.hyph else Tok.lit c)

/-- The hyphen class of the source pattern: ASCII hyphen and U+2010..U+2015. -/
def isHyphCh (c : Char) : Bool := c = '-' || (0x2010 ≤ c.val ∧ c.val ≤ 0x2015)

/-- Length of the maximal whitespace run at the head of the string. -/
def countWs (s : Str) : Nat := (s.takeWhile isSpaceCh).length

/-- First successful value of f over the given candidate list; used to model
regex backtracking, with candidates ordered greedy-first. -/
def firstSome (f : Nat → Option Nat) : List Nat → Option Nat
  | [] => none
  | j :: t =>
      match f j with
      | some r => some r
      | none => firstSome f t

/-- Candidate consumption counts k, k-1, ..., 1 (greedy-first, at least one). -/
def descFrom1 (k : Nat) : List Nat := (List.range k).map (fun i => k - i)

/-- Candidate consumption counts k, k-1, ..., 1, 0 (greedy-first, optional). -/
def descFrom0 (k : Nat) : List Nat := descFrom1 k ++ [0]

/-- Match a compiled keyword pattern at the head of the string, returning the
number of characters consumed.  A whitespace token consumes a nonempty span of
whitespace, a hyphen token consumes optional whitespace, one hyphen-class
character, and optional whitespace; candidates are tried longest-first as a
backtracking regex does.  (For the leading optional whitespace of a hyphen
token no backtracking is needed: shorter prefixes stop at a whitespace
character, which the hyphen class rejects.) -/
def matchT : List Tok → Str → Option Nat
  | [], _ => some 0
  | Tok.lit c :: ts, s =>
      match s with
      | [] => none
      | x :: s1 => if chEqCI c x then (matchT ts s1).map (· + 1) else none
  | Tok.ws :: ts, s =>
      firstSome (fun j => (matchT ts (s.drop j)).map (j + ·)) (descFrom1 (countWs s))
  | Tok.hyph :: ts, s =>
      let j := countWs s
      match s.drop j with
      | [] => none
      | h :: rest =>
          if isHyphCh h then
            firstSome (fun t => (matchT ts (rest.drop t)).map (j + 1 + t + ·))
              (descFrom0 (countWs rest))
          else none

/-- Leftmost match of a compiled pattern (re.search): the first start offset at
which the pattern matches, with the span it produces there. -/
def searchAux (toks : List Tok) : Nat → Str → Option (Nat × Nat)
  | i, s =>
      match matchT toks s with
      | some k => some (i, i + k)
      | none =>
          match s with
          | [] => none
          | _ :: t => searchAux toks (i + 1) t

def searchTok (toks : List Tok) (s : Str) : Option (Nat × Nat) := searchAux toks 0 s

/-- The compiled primary pattern list, in catalog order, with labels. -/
def primaryKeywordPatterns : List (Str × List Tok) :=
  primaryKeywords.map (fun k => (k, compileKeyword k))

/-- GROUP RANKS of the source: normalized labels of the top phrase groups. -/
def groupRanks : List (Str × Nat) :=
  [(S "embargo de declaracao", 1),
   (S "embargos de declaracao", 1),
   (S "recurso", 2),
   (S "recursos", 2),
   (S "pedido de revisao", 3)]

def SEM_CATEGORIA_RANK : Nat := 9

/-- Assoc-list lookup mirroring dict.get with a default. -/
def assocLookup (l : List (Str × Nat)) (k : Str) : Option Nat :=
  match l with
  | [] => none
  | (a, v) :: t => if a = k then some v else assocLookup t k

/-- The source keyword group rank: sentinel for no (or empty) keyword, the
group table value for the three top groups, 4 for every other matched label. -/
def keywordGroupRank (keyword : Option Str) : Nat :=
  match keyword with
  | none => SEM_CATEGORIA_RANK
  | some l =>
      if l = [] then SEM_CATEGORIA_RANK
      else (assocLookup groupRanks (normKeywordLabel l)).getD 4

/-- A pattern match record: matched label, start offset, span length, and
catalog index.  Also serves as the running best-match state of the classifier
loop (the source keeps best label, span, length, position and index). -/
structure KwMatch where
  label : Str
  s : Nat
  len : Nat
  idx : Nat
deriving DecidableEq

/-- One iteration of the classifier loop body, exactly as in the source:
replace the best on a strictly earlier start; on an equal start replace on a
strictly longer span, or on an equal span and a smaller catalog index. -/
def stepBest (b : Option KwMatch) (i : Nat) (lab : Str) (s e : Nat) : Option KwMatch :=
  match b with
  | none => some ⟨lab, s, e - s, i⟩
  | some bb =>
      if s < bb.s then some ⟨lab, s, e - s, i⟩
      else if s = bb.s then
        if e - s > bb.len then some ⟨lab, s, e - s, i⟩
        else if e - s = bb.len ∧ i < bb.idx then some ⟨lab, s, e - s, i⟩
        else some bb
      else some bb

/-- The classifier loop over an (already enumerated) pattern list. -/
def goBest (text : Str) : Nat → List (Str × List Tok) → Option KwMatch → Option KwMatch
  | _, [], b => b
  | i, (lab, pat) :: ps, b =>
      match searchTok pat text with
      | none => goBest text (i + 1) ps b
      | some (s, e) => goBest text (i + 1) ps (stepBest b i lab s e)

/-- All leftmost matches of the enumerated patterns on a text, with their
catalog indices, in catalog order. -/
def matchesFrom (text : Str) : Nat → List (Str × List Tok) → List KwMatch
  | _, [] => []
  | i, (lab, pat) :: ps =>
      match searchTok pat text with
      | none => matchesFrom text (i + 1) ps
      | some (s, e) => ⟨lab, s, e - s, i⟩ :: matchesFrom text (i + 1) ps

/-- All leftmost matches of the primary catalog patterns on a text. -/
def matchesOf (text : Str) : List KwMatch := matchesFrom text 0 primaryKeywordPatterns

/-- The tie-break preference order of the classifier: earlier start offset
first, then longer span, then smaller catalog index. -/
def better (a b : KwMatch) : Prop :=
  a.s < b.s ∨ (a.s = b.s ∧ (b.len < a.len ∨ (a.len = b.len ∧ a.idx ≤ b.idx)))

/-- The source compute primary keyword: clean the text, scan every primary
pattern, and return the best label with its group rank and span. -/
def computePrimaryKeyword (text : Str) : Option Str × Nat × Option (Nat × Nat) :=
  if text = [] then (none, SEM_CATEGORIA_RANK, none)
  else
    match goBest (cleanDocxText text) 0 primaryKeywordPatterns none with
    | none => (none, SEM_CATEGORIA_RANK, none)
    | some b =>
        if b.label = [] then (none, SEM_CATEGORIA_RANK, none)
        else (some b.label, keywordGroupRank (some b.label), some (b.s, b.s + b.len))

/-!  Lemmas about the classifier loop. -/

theorem better_refl (a : KwMatch) : better a a := by
  unfold better; omega

theorem better_trans {a b c : KwMatch} (h1 : better a b) (h2 : better b c) : better a c := by
  unfold better at h1 h2 ⊢; omega

theorem matchesFrom_label {text : Str} :
    ∀ (ps : List (Str × List Tok)) (i : Nat) (m : KwMatch),
      m ∈ matchesFrom text i ps → m.label ∈ ps.map Prod.fst := by
  intro ps
  induction ps with
  | nil => intro i m h; simp [matchesFrom] at h
  | cons hd tl ih =>
      intro i m h
      obtain ⟨lab, pat⟩ := hd
      cases hs : searchTok pat text with
      | none =>
          simp only [matchesFrom, hs] at h
          exact List.mem_cons_of_mem _ (ih (i + 1) m h)
      | some se =>
          obtain ⟨s, e⟩ := se
          simp only [matchesFrom, hs] at h
          rcases List.mem_cons.mp h with h1 | h1
          · subst h1; exact List.mem_cons_self _ _
          · exact List.mem_cons_of_mem _ (ih (i + 1) m h1)

theorem stepBest_cases (bb : KwMatch) (i : Nat) (lab : Str) (s e : Nat)
    (hidx : bb.idx < i) :
    (stepBest (some bb) i lab s e = some ⟨lab, s, e - s, i⟩ ∧
      better ⟨lab, s, e - s, i⟩ bb) ∨
    (stepBest (some bb) i lab s e = some bb ∧ better bb ⟨lab, s, e - s, i⟩) := by
  simp only [stepBest]
  split_ifs with h1 h2 h3 h4
  · left; exact ⟨rfl, Or.inl h1⟩
  · left; exact ⟨rfl, by unfold better; dsimp only; omega⟩
  · exact absurd h4.2 (by omega)
  · right; exact ⟨rfl, by unfold better; dsimp only; omega⟩
  · right; exact ⟨rfl, by unfold better; dsimp only; omega⟩

theorem goBest_some (text : Str) :
    ∀ (ps : List (Str × List Tok)) (i : Nat) (bb : KwMatch), bb.idx < i →
      ∃ b2, goBest text i ps (some bb) = some b2 ∧
        b2 ∈ bb :: matchesFrom text i ps ∧
        (∀ x ∈ bb :: matchesFrom text i ps, better b2 x) ∧
        b2.idx < i + ps.length := by
  intro ps
  induction ps with
  | nil =>
      intro i bb hidx
      refine ⟨bb, rfl, List.mem_cons_self _ _, ?_, ?_⟩
      · intro x hx
        simp [matchesFrom] at hx
        subst hx
        exact better_refl _
      · simpa using hidx
  | cons hd tl ih =>
      intro i bb hidx
      obtain ⟨lab, pat⟩ := hd
      cases hs : searchTok pat text with
      | none =>
          have hg : goBest text i ((lab, pat) :: tl) (some bb) =
              goBest text (i + 1) tl (some bb) := by
            simp only [goBest, hs]
          have hm : matchesFrom text i ((lab, pat) :: tl) =
              matchesFrom text (i + 1) tl := by
            simp only [matchesFrom, hs]
          obtain ⟨b2, hgo, hmem, hdom, hb2⟩ := ih (i + 1) bb (by omega)
          rw [hg, hm]
          exact ⟨b2, hgo, hmem, hdom, by simp; omega⟩
      | some se =>
          obtain ⟨s, e⟩ := se
          have hg : goBest text i ((lab, pat) :: tl) (some bb) =
              goBest text (i + 1) tl (stepBest (some bb) i lab s e) := by
            simp only [goBest, hs]
          have hm : matchesFrom text i ((lab, pat) :: tl) =
              ⟨lab, s, e - s, i⟩ :: matchesFrom text (i + 1) tl := by
            simp only [matchesFrom, hs]
          rw [hg, hm]
          rcases stepBest_cases bb i lab s e hidx with ⟨hstep, hnb⟩ | ⟨hstep, hbn⟩
          · rw [hstep]
            obtain ⟨b2, hgo, hmem, hdom, hb2⟩ := ih (i + 1) ⟨lab, s, e - s, i⟩ (by simp)
            refine ⟨b2, hgo, ?_, ?_, by simp; omega⟩
            · rcases List.mem_cons.mp hmem with h1 | h1
              · exact List.mem_cons_of_mem _ (h1 ▸ List.mem_cons_self _ _)
              · exact List.mem_cons_of_mem _ (List.mem_cons_of_mem _ h1)
            · intro x hx
              have hbnew : better b2 ⟨lab, s, e - s, i⟩ := hdom _ (List.mem_cons_self _ _)
              rcases List.mem_cons.mp hx with h1 | h1
              · exact h1 ▸ better_trans hbnew hnb
              · exact hdom _ h1
          · rw [hstep]
            obtain ⟨b2, hgo, hmem, hdom, hb2⟩ := ih (i + 1) bb (by omega)
            refine ⟨b2, hgo, ?_, ?_, by simp; omega⟩
            · rcases List.mem_cons.mp hmem with h1 | h1
              · exact h1 ▸ List.mem_cons_self _ _
              · exact List.mem_cons_of_mem _ (List.mem_cons_of_mem _ h1)
            · intro x hx
              have hbbb : better b2 bb := hdom _ (List.mem_cons_self _ _)
              rcases List.mem_cons.mp hx with h1 | h1
              · exact h1 ▸ hbbb
              · rcases List.mem_cons.mp h1 with h2 | h2
                · exact h2 ▸ better_trans hbbb hbn
                · exact hdom _ (List.mem_cons_of_mem _ h2)

theorem goBest_none (text : Str) :
    ∀ (ps : List (Str × List Tok)) (i : Nat), matchesFrom text i ps ≠ [] →
      ∃ b2, goBest text i ps none = some b2 ∧
        b2 ∈ matchesFrom text i ps ∧
        ∀ x ∈ matchesFrom text i ps, better b2 x := by
  intro ps
  induction ps with
  | nil => intro i h; simp [matchesFrom] at h
  | cons hd tl ih =>
      intro i h
      obtain ⟨lab, pat⟩ := hd
      cases hs : searchTok pat text with
      | none =>
          have hg : goBest text i ((lab, pat) :: tl) none = goBest text (i + 1) tl none := by
            simp only [goBest, hs]
          have hm : matchesFrom text i ((lab, pat) :: tl) = matchesFrom text (i + 1) tl := by
            simp only [matchesFrom, hs]
          rw [hm] at h
          rw [hg, hm]
          exact ih (i + 1) h
      | some se =>
          obtain ⟨s, e⟩ := se
          have hg : goBest text i ((lab, pat) :: tl) none =
              goBest text (i + 1) tl (some ⟨lab, s, e - s, i⟩) := by
            simp only [goBest, hs]; rfl
          have hm : matchesFrom text i ((lab, pat) :: tl) =
              ⟨lab, s, e - s, i⟩ :: matchesFrom text (i + 1) tl := by
            simp only [matchesFrom, hs]
          rw [hg, hm]
          obtain ⟨b2, hgo, hmem, hdom, _⟩ :=
            goBest_some text tl (i + 1) ⟨lab, s, e - s, i⟩ (by simp)
          exact ⟨b2, hgo, hmem, hdom⟩

theorem assocLookup_groupRanks_le (k : Str) (v : Nat)
    (h : assocLookup groupRanks k = some v) : v ≤ 4 := by
  simp only [groupRanks, assocLookup] at h
  split_ifs at h <;> simp at h <;> omega

theorem keywordGroupRank_le (l : Str) (hl : l ≠ []) : keywordGroupRank (some l) ≤ 4 := by
  simp only [keywordGroupRank]
  rw [if_neg hl]
  cases hf : assocLookup groupRanks (normKeywordLabel l) with
  | none => simp
  | some v => simpa using assocLookup_groupRanks_le _ v hf

theorem primary_labels_nonempty :
    ∀ lab ∈ primaryKeywordPatterns.map Prod.fst, lab ≠ [] := by decide

/-- C1: for every subject text on which at least one primary catalog pattern
matches, compute primary keyword returns the label, group rank and span of a
match that is preferred over every pattern match: it has the earliest start
offset, among equal starts the longest span, and among equal starts and spans
the smallest catalog index. -/
theorem c1_classifier_tiebreak (text : Str)
    (h : matchesOf (cleanDocxText text) ≠ []) :
    ∃ m ∈ matchesOf (cleanDocxText text),
      computePrimaryKeyword text =
        (some m.label, keywordGroupRank (some m.label), some (m.s, m.s + m.len)) ∧
      ∀ m2 ∈ matchesOf (cleanDocxText text), better m m2 := by
  have htext : text ≠ [] := by
    intro he
    rw [he] at h
    exact h (by decide)
  obtain ⟨b2, hgo, hmem, hdom⟩ :=
    goBest_none (cleanDocxText text) primaryKeywordPatterns 0 h
  have hlab : b2.label ≠ [] :=
    primary_labels_nonempty b2.label
      (matchesFrom_label primaryKeywordPatterns 0 b2 hmem)
  refine ⟨b2, hmem, ?_, hdom⟩
  unfold computePrimaryKeyword
  rw [if_neg htext, hgo]
  simp only []
  rw [if_neg hlab]

/-- Witness for C1 at a concrete subject text. -/
theorem c1_classifier_tiebreak_witness :
    matchesOf (cleanDocxText (S "Contrato emergencial")) ≠ [] ∧
    ∃ m ∈ matchesOf (cleanDocxText (S "Contrato emergencial")),
      computePrimaryKeyword (S "Contrato emergencial") =
        (some m.label, keywordGroupRank (some m.label), some (m.s, m.s + m.len)) ∧
      ∀ m2 ∈ matchesOf (cleanDocxText (S "Contrato emergencial")), better m m2 :=
  ⟨by decide, c1_classifier_tiebreak (S "Contrato emergencial") (by decide)⟩

/-- C2: the classify examples of the spec receive ranks 1, 2, 3, 4 and the
sentinel uncategorized rank respectively, and the sentinel rank is strictly
greater than the rank of every matched text, so uncategorized items sort after
all categorized items. -/
theorem c2_classifier_rank_groups :
    (computePrimaryKeyword (S "Embargos de Declaração em face do acórdão")).2.1 = 1 ∧
    (computePrimaryKeyword (S "Recurso ordinário")).2.1 = 2 ∧
    (computePrimaryKeyword (S "Pedido de Revisão do processo")).2.1 = 3 ∧
    (computePrimaryKeyword (S "Contrato emergencial")).2.1 = 4 ∧
    computePrimaryKeyword (S "Texto sem tipo conhecido") = (none, SEM_CATEGORIA_RANK, none) ∧
    ∀ (text l : Str) (r : Nat) (sp : Option (Nat × Nat)),
      computePrimaryKeyword text = (some l, r, sp) → r ≤ 4 ∧ r < SEM_CATEGORIA_RANK := by
  refine ⟨by decide, by decide, by decide, by decide, by decide, ?_⟩
  intro text l r sp h
  unfold computePrimaryKeyword at h
  by_cases ht : text = []
  · rw [if_pos ht] at h
    simp [Prod.ext_iff] at h
  · rw [if_neg ht] at h
    cases hg : goBest (cleanDocxText text) 0 primaryKeywordPatterns none with
    | none =>
        rw [hg] at h
        simp [Prod.ext_iff] at h
    | some b =>
        rw [hg] at h
        simp only [] at h
        by_cases hb : b.label = []
        · rw [if_pos hb] at h
          simp [Prod.ext_iff] at h
        · rw [if_neg hb] at h
          have hr : r = keywordGroupRank (some b.label) := by
            have := congrArg (fun p => p.2.1) h
            simpa using this.symm
          have h4 : keywordGroupRank (some b.label) ≤ 4 := keywordGroupRank_le b.label hb
          constructor
          · omega
          · unfold SEM_CATEGORIA_RANK
            omega

/-- Witness for the conditional part of C2 at a concrete matched text. -/
theorem c2_classifier_rank_groups_witness :
    computePrimaryKeyword (S "Recurso ordinário") = (some (S "Recurso"), 2, some (0, 7)) ∧
    (2 ≤ 4 ∧ 2 < SEM_CATEGORIA_RANK) :=
  ⟨by decide,
   c2_classifier_rank_groups.2.2.2.2.2 (S "Recurso ordinário") (S "Recurso") 2
     (some (0, 7)) (by decide)⟩

/-- C6 counterexample: the phrase Diversos is not in the primary catalog, so
on a text containing Diversos at offset 5 and Recurso at offset 20 the
classifier selects Recurso, not Diversos as the claim states. -/
theorem c6_counterexample :
    isSubAt (S "Diversos") ((S "Meu: Diversos texto Recurso").drop 5) = true ∧
    isSubAt (S "Recurso") ((S "Meu: Diversos texto Recurso").drop 20) = true ∧
    (computePrimaryKeyword (S "Meu: Diversos texto Recurso")).1 ≠ some (S "Diversos") := by
  refine ⟨by decide, by decide, by decide⟩

/-- C6 amended: Diversos belongs only to the bold-highlight term list, not to
the primary classification catalog, so the classifier selects Recurso on the
claimed text; for two phrases that are both in the catalog the earlier start
offset wins regardless of length or catalog order, as on a text with Contrato
at offset 5 and Recurso at offset 20. -/
theorem c6_amended :
    computePrimaryKeyword (S "Meu: Diversos texto Recurso") =
      (some (S "Recurso"), 2, some (20, 27)) ∧
    (S "Diversos") ∉ primaryKeywords ∧
    computePrimaryKeyword (S "Meu: Contrato texto Recurso") =
      (some (S "Contrato"), 4, some (5, 13)) := by
  refine ⟨by decide, by decide, by decide⟩

/-- C4 counterexample: one application of the mojibake fixer is not a fixed
point of the fixer on this input (the pair repair can output a string with a
codepoint in the C1 band, which the next application re-decodes). -/
theorem c4_counterexample :
    fixMojibake (fixMojibake (S "ÂÂ€")) ≠ fixMojibake (S "ÂÂ€") := by decide

/-- C4 amended: the mojibake fixer is idempotent on every input whose repaired
form is a fixed point of the pair-repair pass and contains no codepoint in the
0x80..0x9F band (both hold for ordinary mojibake input). -/
theorem c4_mojibake_idempotent (s : Str)
    (h1 : repairPairs (fixMojibake s) = fixMojibake s)
    (h2 : (fixMojibake s).any isC1Band = false) :
    fixMojibake (fixMojibake s) = fixMojibake s := by
  conv_lhs => rw [fixMojibake]
  rw [h2]
  simp only [Bool.false_eq_true, if_false]
  rw [mojibakeLoop, if_pos h1]

/-- Witness for C4 amended at a concrete doubly-encoded input. -/
theorem c4_mojibake_idempotent_witness :
    repairPairs (fixMojibake (S "Ã§")) = fixMojibake (S "Ã§") ∧
    (fixMojibake (S "Ã§")).any isC1Band = false ∧
    fixMojibake (fixMojibake (S "Ã§")) = fixMojibake (S "Ã§") :=
  ⟨by decide, by decide, c4_mojibake_idempotent (S "Ã§") (by decide) (by decide)⟩

/-!  Special always-bold spans and bold-run splitting (claim C10). -/

/-- The voto-de-desempate pattern of the source: the words joined by
one-or-more-whitespace, case-insensitive. -/
def votoDesempateToks : List Tok := compileKeyword (S "para proferir voto de desempate")

/-- Length of the maximal ASCII digit run at the head of the string. -/
def digitRunLen (s : Str) : Nat := (s.takeWhile isDigitCh).length

/-- Candidate consumption lengths, in regex backtracking preference order
(greedy first), of the starred group dot-digits of the item token. -/
def starLens (s : Str) : Nat → List Nat
  | 0 => [0]
  | fuel + 1 =>
      match s with
      | '.' :: rest =>
          let dr := digitRunLen rest
          if dr = 0 then [0]
          else
            ((descFrom1 dr).flatMap (fun d =>
              (starLens (rest.drop d) fuel).map (fun g => 1 + d + g))) ++ [0]
      | _ => [0]

/-- Candidate consumption lengths, greedy-first, of the item token of the
itens-englobados pattern: one-or-more digits, any number of dot-digit groups,
and an optional trailing ASCII letter. -/
def itemLens (s : Str) : List Nat :=
  (descFrom1 (digitRunLen s)).flatMap (fun d =>
    (starLens (s.drop d) s.length).flatMap (fun g =>
      match s.drop (d + g) with
      | c :: _ => if isAsciiAlpha c then [d + g + 1, d + g] else [d + g]
      | [] => [d + g]))

/-- Second half of the itens-englobados matcher: after the separator, optional
whitespace, an item, optional whitespace, the connector letter e or a
(case-insensitive), optional whitespace, and a second item. -/
def matchItensTail (r2 : Str) : Option Nat :=
  let j2 := countWs r2
  let r3 := r2.drop j2
  firstSome (fun L1 =>
    let r4 := r3.drop L1
    let j3 := countWs r4
    match r4.drop j3 with
    | conn :: r5 =>
        if lowerCh conn = 'e' ∨ lowerCh conn = 'a' then
          let j4 := countWs r5
          (firstSome (fun L2 => some L2) (itemLens (r5.drop j4))).map
            (fun L2 => j2 + L1 + j3 + 1 + j4 + L2)
        else none
    | [] => none) (itemLens r3)

/-- The itens-englobados pattern of the source, matched at the head of the
string: itens, whitespace, englobados, optional whitespace, a hyphen-class
character or a colon, then two items joined by e or a. -/
def matchItensAt (s : Str) : Option Nat :=
  match matchT (compileKeyword (S "itens englobados")) s with
  | none => none
  | some c1 =>
      let r1 := s.drop c1
      let j := countWs r1
      match r1.drop j with
      | sep :: r2 =>
          if isHyphCh sep ∨ sep = ':' then
            (matchItensTail r2).map (fun t => c1 + j + 1 + t)
          else none
      | [] => none

/-- Non-overlapping left-to-right match enumeration (re.finditer) for a
head-matcher, with fuel bounded by the text length. -/
def finditerAux (f : Str → Option Nat) : Nat → Str → Nat → List (Nat × Nat)
  | _, _, 0 => []
  | i, s, fuel + 1 =>
      match f s with
      | some k =>
          if k = 0 then
            (if s = [] then [] else finditerAux f (i + 1) s.tail fuel)
          else (i, i + k) :: finditerAux f (i + k) (s.drop k) fuel
      | none => if s = [] then [] else finditerAux f (i + 1) s.tail fuel

def finditerStr (f : Str → Option Nat) (s : Str) : List (Nat × Nat) :=
  finditerAux f 0 s (s.length + 1)

/-- The source find special spans: all matches of the voto-de-desempate
pattern followed by all matches of the itens-englobados pattern. -/
def findSpecialSpans (texto : Str) : List (Nat × Nat) :=
  finditerStr (matchT votoDesempateToks) texto ++ finditerStr matchItensAt texto

/-- Stable insertion by span start (equal starts keep the earlier element
first), modelling Python sorted with the start key. -/
def insertSpan (x : Nat × Nat) : List (Nat × Nat) → List (Nat × Nat)
  | [] => [x]
  | y :: ys => if y.1 < x.1 then y :: insertSpan x ys else x :: y :: ys

def sortSpans : List (Nat × Nat) → List (Nat × Nat)
  | [] => []
  | x :: xs => insertSpan x (sortSpans xs)

/-- The merging loop of merge spans: the current span absorbs the next one
when its start does not exceed the current end. -/
def mergeAux : (Nat × Nat) → List (Nat × Nat) → List (Nat × Nat)
  | cur, [] => [cur]
  | cur, (s, e) :: rest =>
      if s ≤ cur.2 then mergeAux (cur.1, max cur.2 e) rest
      else cur :: mergeAux (s, e) rest

/-- The source merge spans: sort by start, then absorb overlapping spans. -/
def mergeSpans (spans : List (Nat × Nat)) : List (Nat × Nat) :=
  match sortSpans spans with
  | [] => []
  | x :: rest => mergeAux x rest

/-- Python slice texto from a to b (never negative in this code), with the
clamping behaviour of Python slicing. -/
def pySlice (texto : Str) (a b : Nat) : Str := (texto.drop a).take (b - a)

/-- The run construction loop of split objeto runs. -/
def buildRuns (texto : Str) : Nat → List (Nat × Nat) → List (Str × Bool)
  | pos, [] => if pos < texto.length then [(texto.drop pos, false)] else []
  | pos, (s, e) :: rest =>
      (if pos < s then [(pySlice texto pos s, false)] else []) ++
      ((pySlice texto s e, true) :: buildRuns texto e rest)

/-- All spans collected by split objeto runs: the primary keyword span, if
any, followed by the special spans. -/
def allSpansOf (texto : Str) : List (Nat × Nat) :=
  (match (computePrimaryKeyword texto).2.2 with
   | some sp => [sp]
   | none => []) ++ findSpecialSpans texto

/-- The source split objeto runs. -/
def splitObjetoRuns (texto : Str) : List (Str × Bool) :=
  if allSpansOf texto = [] then [(texto, false)]
  else buildRuns texto 0 (mergeSpans (allSpansOf texto))

/-- Concatenation of the text chunks of a run list. -/
def joinRuns (runs : List (Str × Bool)) : Str :=
  runs.foldr (fun r acc => r.1 ++ acc) []

/-- Cut-point chain: each span starts at or after the previous position and
ends at or after its own start. -/
def SpanChainFrom : Nat → List (Nat × Nat) → Prop
  | _, [] => True
  | pos, (s, e) :: rest => pos ≤ s ∧ s ≤ e ∧ SpanChainFrom e rest

theorem pySlice_append (l : Str) (a b : Nat) (h : a ≤ b) :
    pySlice l a b ++ l.drop b = l.drop a := by
  have hd : l.drop b = (l.drop a).drop (b - a) := by
    rw [List.drop_drop]
    congr 1
    omega
  rw [pySlice, hd, List.take_append_drop]

theorem finditerAux_valid (f : Str → Option Nat) :
    ∀ (fuel : Nat) (i : Nat) (s : Str) (p : Nat × Nat),
      p ∈ finditerAux f i s fuel → p.1 ≤ p.2 := by
  intro fuel
  induction fuel with
  | zero => intro i s p h; simp [finditerAux] at h
  | succ n ih =>
      intro i s p h
      cases hf : f s with
      | some k =>
          simp only [finditerAux, hf] at h
          by_cases hk : k = 0
          · rw [if_pos hk] at h
            by_cases hs : s = []
            · rw [if_pos hs] at h; simp at h
            · rw [if_neg hs] at h
              exact ih (i + 1) s.tail p h
          · rw [if_neg hk] at h
            rcases List.mem_cons.mp h with h1 | h1
            · subst h1; simp
            · exact ih (i + k) (s.drop k) p h1
      | none =>
          simp only [finditerAux, hf] at h
          by_cases hs : s = []
          · rw [if_pos hs] at h; simp at h
          · rw [if_neg hs] at h
            exact ih (i + 1) s.tail p h

theorem cpk_span_valid (texto : Str) (s e : Nat)
    (h : (computePrimaryKeyword texto).2.2 = some (s, e)) : s ≤ e := by
  unfold computePrimaryKeyword at h
  by_cases ht : texto = []
  · rw [if_pos ht] at h; simp at h
  · rw [if_neg ht] at h
    cases hg : goBest (cleanDocxText texto) 0 primaryKeywordPatterns none with
    | none => rw [hg] at h; simp at h
    | some b =>
        rw [hg] at h
        simp only [] at h
        by_cases hb : b.label = []
        · rw [if_pos hb] at h; simp at h
        · rw [if_neg hb] at h
          simp at h
          omega

theorem mem_insertSpan (x p : Nat × Nat) :
    ∀ l : List (Nat × Nat), p ∈ insertSpan x l → p = x ∨ p ∈ l := by
  intro l
  induction l with
  | nil => intro h; simpa [insertSpan] using h
  | cons y ys ih =>
      intro h
      unfold insertSpan at h
      split_ifs at h
      · rcases List.mem_cons.mp h with h1 | h1
        · exact Or.inr (h1 ▸ List.mem_cons_self _ _)
        · rcases ih h1 with h2 | h2
          · exact Or.inl h2
          · exact Or.inr (List.mem_cons_of_mem _ h2)
      · rcases List.mem_cons.mp h with h1 | h1
        · exact Or.inl h1
        · exact Or.inr h1

theorem insertSpan_pairwise (x : Nat × Nat) :
    ∀ l : List (Nat × Nat), l.Pairwise (fun a b => a.1 ≤ b.1) →
      (insertSpan x l).Pairwise (fun a b => a.1 ≤ b.1) := by
  intro l
  induction l with
  | nil => intro _; simp [insertSpan]
  | cons y ys ih =>
      intro h
      rcases List.pairwise_cons.mp h with ⟨hy, hys⟩
      unfold insertSpan
      split_ifs with hc
      · refine List.pairwise_cons.mpr ⟨?_, ih hys⟩
        intro p hp
        rcases mem_insertSpan x p ys hp with h1 | h1
        · subst h1; omega
        · exact hy p h1
      · refine List.pairwise_cons.mpr ⟨?_, h⟩
        intro p hp
        rcases List.mem_cons.mp hp with h1 | h1
        · subst h1; omega
        · exact le_trans (by omega) (hy p h1)

theorem sortSpans_pairwise :
    ∀ l : List (Nat × Nat), (sortSpans l).Pairwise (fun a b => a.1 ≤ b.1) := by
  intro l
  induction l with
  | nil => simp [sortSpans]
  | cons x xs ih => exact insertSpan_pairwise x (sortSpans xs) ih

theorem mem_sortSpans (p : Nat × Nat) :
    ∀ l : List (Nat × Nat), p ∈ sortSpans l → p ∈ l := by
  intro l
  induction l with
  | nil => intro h; simp [sortSpans] at h
  | cons x xs ih =>
      intro h
      rcases mem_insertSpan x p (sortSpans xs) h with h1 | h1
      · exact h1 ▸ List.mem_cons_self _ _
      · exact List.mem_cons_of_mem _ (ih h1)

theorem mergeAux_chain :
    ∀ (l : List (Nat × Nat)) (cur : Nat × Nat),
      l.Pairwise (fun a b => a.1 ≤ b.1) →
      (∀ p ∈ l, cur.1 ≤ p.1) →
      cur.1 ≤ cur.2 →
      (∀ p ∈ l, p.1 ≤ p.2) →
      ∃ E tail, mergeAux cur l = (cur.1, E) :: tail ∧ cur.2 ≤ E ∧
        ((cur.1, E) :: tail).Chain' (fun a b => a.2 < b.1) ∧
        (∀ p ∈ (cur.1, E) :: tail, p.1 ≤ p.2) := by
  intro l
  induction l with
  | nil =>
      intro cur _ _ hcur _
      refine ⟨cur.2, [], rfl, le_refl _, List.chain'_singleton _, ?_⟩
      intro p hp
      simp at hp
      subst hp
      simpa using hcur
  | cons hd rest ih =>
      intro cur hpair hge hcur hval
      obtain ⟨s, e⟩ := hd
      rcases List.pairwise_cons.mp hpair with ⟨hhd, hrest⟩
      by_cases hc : s ≤ cur.2
      · have h1 : ∀ p ∈ rest, (cur.1, max cur.2 e).1 ≤ p.1 := by
          intro p hp
          have := hge (s, e) (List.mem_cons_self _ _)
          simp only []
          exact le_trans (by simpa using this) (hhd p hp)
        have h2 : (cur.1, max cur.2 e).1 ≤ (cur.1, max cur.2 e).2 := by
          simp only []
          omega
        have h3 : ∀ p ∈ rest, p.1 ≤ p.2 := fun p hp => hval p (List.mem_cons_of_mem _ hp)
        obtain ⟨E, tail, heq, hE, hchain, hv⟩ := ih (cur.1, max cur.2 e) hrest h1 h2 h3
        have hres : mergeAux cur ((s, e) :: rest) = mergeAux (cur.1, max cur.2 e) rest := by
          simp [mergeAux, hc]
        refine ⟨E, tail, by rw [hres, heq], by omega, by rw [← heq, hres] at *; exact hchain, ?_⟩
        exact hv
      · have h1 : ∀ p ∈ rest, (s, e).1 ≤ p.1 := by
          intro p hp
          simpa using hhd p hp
        have h2 : (s, e).1 ≤ (s, e).2 := hval (s, e) (List.mem_cons_self _ _)
        have h3 : ∀ p ∈ rest, p.1 ≤ p.2 := fun p hp => hval p (List.mem_cons_of_mem _ hp)
        obtain ⟨E, tail, heq, hE, hchain, hv⟩ := ih (s, e) hrest h1 h2 h3
        have hres : mergeAux cur ((s, e) :: rest) = cur :: mergeAux (s, e) rest := by
          simp [mergeAux, hc]
        refine ⟨cur.2, mergeAux (s, e) rest, by rw [hres], le_refl _, ?_, ?_⟩
        · rw [heq]
          refine List.chain'_cons.mpr ⟨by simp; omega, ?_⟩
          rw [← heq]
          exact heq ▸ hchain
        · intro p hp
          rcases List.mem_cons.mp hp with h4 | h4
          · subst h4; simpa using hcur
          · rw [heq] at h4
            exact hv p h4

theorem mergeSpans_spec (spans : List (Nat × Nat))
    (hval : ∀ p ∈ spans, p.1 ≤ p.2) :
    (mergeSpans spans).Chain' (fun a b => a.2 < b.1) ∧
    ∀ p ∈ mergeSpans spans, p.1 ≤ p.2 := by
  unfold mergeSpans
  cases hs : sortSpans spans with
  | nil => simp
  | cons x rest =>
      have hpair : (x :: rest).Pairwise (fun a b => a.1 ≤ b.1) := by
        rw [← hs]; exact sortSpans_pairwise spans
      have hmem : ∀ p ∈ x :: rest, p ∈ spans := by
        intro p hp
        exact mem_sortSpans p spans (hs ▸ hp)
      rcases List.pairwise_cons.mp hpair with ⟨hx, hrest⟩
      obtain ⟨E, tail, heq, hE, hchain, hv⟩ :=
        mergeAux_chain rest x hrest hx (hval x (hmem x (List.mem_cons_self _ _)))
          (fun p hp => hval p (hmem p (List.mem_cons_of_mem _ hp)))
      dsimp only
      rw [heq]
      exact ⟨hchain, hv⟩

theorem spanChainFrom_of :
    ∀ (l : List (Nat × Nat)) (pos : Nat),
      l.Chain' (fun a b => a.2 < b.1) →
      (∀ p ∈ l, p.1 ≤ p.2) →
      (∀ q ∈ l.head?, pos ≤ q.1) →
      SpanChainFrom pos l := by
  intro l
  induction l with
  | nil => intro pos _ _ _; trivial
  | cons hd tl ih =>
      intro pos hchain hval hhead
      obtain ⟨s, e⟩ := hd
      refine ⟨by simpa using hhead (s, e) rfl, by have := hval (s, e) (List.mem_cons_self _ _); simpa using this, ?_⟩
      refine ih e hchain.tail (fun p hp => hval p (List.mem_cons_of_mem _ hp)) ?_
      intro q hq
      cases tl with
      | nil => simp at hq
      | cons q2 tl2 =>
          simp at hq
          subst hq
          have := List.chain'_cons.mp hchain
          omega

theorem buildRuns_join (texto : Str) :
    ∀ (spans : List (Nat × Nat)) (pos : Nat), SpanChainFrom pos spans →
      joinRuns (buildRuns texto pos spans) = texto.drop pos := by
  intro spans
  induction spans with
  | nil =>
      intro pos _
      by_cases hp : pos < texto.length
      · simp [buildRuns, joinRuns, hp]
      · have hnil : texto.drop pos = [] := List.drop_eq_nil_of_le (by omega)
        simp [buildRuns, joinRuns, hp, hnil]
  | cons hd tl ih =>
      obtain ⟨s, e⟩ := hd
      intro pos h
      obtain ⟨h1, h2, h3⟩ := h
      by_cases hps : pos < s
      · have hb : buildRuns texto pos ((s, e) :: tl) =
            (pySlice texto pos s, false) :: (pySlice texto s e, true) :: buildRuns texto e tl := by
          simp [buildRuns, hps]
        rw [hb]
        simp only [joinRuns, List.foldr_cons]
        have hj : joinRuns (buildRuns texto e tl) = texto.drop e := ih e h3
        simp only [joinRuns] at hj
        rw [hj, pySlice_append texto s e h2, pySlice_append texto pos s (by omega)]
      · have hpe : pos = s := by omega
        subst hpe
        have hb : buildRuns texto pos ((pos, e) :: tl) =
            (pySlice texto pos e, true) :: buildRuns texto e tl := by
          simp [buildRuns]
        rw [hb]
        simp only [joinRuns, List.foldr_cons]
        have hj : joinRuns (buildRuns texto e tl) = texto.drop e := ih e h3
        simp only [joinRuns] at hj
        rw [hj, pySlice_append texto pos e h2]

theorem allSpansOf_valid (texto : Str) : ∀ p ∈ allSpansOf texto, p.1 ≤ p.2 := by
  intro p hp
  unfold allSpansOf at hp
  rcases List.mem_append.mp hp with h1 | h1
  · cases hc : (computePrimaryKeyword texto).2.2 with
    | none => rw [hc] at h1; simp at h1
    | some sp =>
        obtain ⟨s, e⟩ := sp
        rw [hc] at h1
        simp at h1
        subst h1
        exact cpk_span_valid texto s e hc
  · unfold findSpecialSpans at h1
    rcases List.mem_append.mp h1 with h2 | h2
    · exact finditerAux_valid _ _ _ _ p h2
    · exact finditerAux_valid _ _ _ _ p h2

/-- C10: bold-run splitting preserves the text exactly (the concatenation of
the returned chunks is the input, character for character), and span merging
produces pairwise disjoint spans in left-to-right order whenever the input
spans are well-formed (start at most end, as all match spans are). -/
theorem c10_split_runs_preserve_text :
    (∀ texto : Str, joinRuns (splitObjetoRuns texto) = texto) ∧
    (∀ spans : List (Nat × Nat), (∀ p ∈ spans, p.1 ≤ p.2) →
      (mergeSpans spans).Chain' (fun a b => a.2 < b.1) ∧
      ∀ p ∈ mergeSpans spans, p.1 ≤ p.2) := by
  constructor
  · intro texto
    unfold splitObjetoRuns
    by_cases hs : allSpansOf texto = []
    · simp [hs, joinRuns]
    · rw [if_neg hs]
      obtain ⟨hchain, hval⟩ := mergeSpans_spec (allSpansOf texto) (allSpansOf_valid texto)
      have hcf : SpanChainFrom 0 (mergeSpans (allSpansOf texto)) :=
        spanChainFrom_of _ 0 hchain hval (fun q _ => Nat.zero_le _)
      rw [buildRuns_join texto _ 0 hcf]
      simp
  · intro spans hval
    exact mergeSpans_spec spans hval

/-- Witness for the conditional part of C10 at concrete overlapping spans. -/
theorem c10_split_runs_preserve_text_witness :
    (mergeSpans [(3, 7), (0, 5), (9, 10)]).Chain' (fun a b => a.2 < b.1) ∧
    ∀ p ∈ mergeSpans [(3, 7), (0, 5), (9, 10)], p.1 ≤ p.2 :=
  c10_split_runs_preserve_text.2 [(3, 7), (0, 5), (9, 10)] (by decide)

/-!  Tramitam-em-conjunto grouping (claim C5). -/

/-- Generic first-success combinator over candidate lists. -/
def firstSomeG {α : Type} (f : Nat → Option α) : List Nat → Option α
  | [] => none
  | j :: t =>
      match f j with
      | some r => some r
      | none => firstSomeG f t

/-- Python regex word class for the characters of this pipeline: ASCII
letters, digits, underscore, and Latin-1 letters. -/
def isWordCh (c : Char) : Bool :=
  isAsciiAlpha c || isDigitCh c || c = '_' || c.val = 0xAA || c.val = 0xB5 || c.val = 0xBA ||
  (0xC0 ≤ c.val ∧ c.val ≤ 0xFF ∧ c.val ≠ 0xD7 ∧ c.val ≠ 0xF7)

/-- Slash-or-whitespace class of the TC id pattern. -/
def isSlashWs (c : Char) : Bool := isSpaceCh c || c = '/'

/-- Digit-or-dot class of the first capture group of the TC id pattern. -/
def isDigitDot (c : Char) : Bool := isDigitCh c || c = '.'

/-- Tail of the TC id pattern after the TC (and optional s) prefix: optional
slash-or-whitespace run, the digits-and-dots group, optional whitespace, a
slash, optional whitespace, and exactly four digits.  Returns consumed length
and the two capture groups.  Candidate lengths are tried greedy-first; the two
adjacent star classes of the source pattern collapse into one run because the
whitespace class is contained in the slash-or-whitespace class. -/
def tcTail (rest : Str) : Option (Nat × Str × Str) :=
  firstSomeG (fun k =>
    let r1 := rest.drop k
    firstSomeG (fun g =>
      let r2 := r1.drop g
      let j2 := countWs r2
      match r2.drop j2 with
      | '/' :: r3 =>
          let j3 := countWs r3
          let y := (r3.drop j3).take 4
          if y.length = 4 ∧ y.all isDigitCh then
            some (k + g + j2 + 1 + j3 + 4, r1.take g, y)
          else none
      | _ => none) (descFrom1 (r1.takeWhile isDigitDot).length))
    (descFrom0 (rest.takeWhile isSlashWs).length)

/-- The TC id pattern matched at the head of the string (case-insensitive TC,
optional s, then the tail). -/
def matchTcAt (s : Str) : Option (Nat × Str × Str) :=
  match s with
  | t :: c :: rest =>
      if chEqCI 'T' t && chEqCI 'C' c then
        match rest with
        | x :: rest2 =>
            if chEqCI 's' x then
              match tcTail rest2 with
              | some (k, g1, g2) => some (3 + k, g1, g2)
              | none => (tcTail rest).map (fun r => (2 + r.1, r.2))
            else (tcTail rest).map (fun r => (2 + r.1, r.2))
        | [] => none
      else none
  | _ => none

/-- Leftmost TC id match (re.search): first offset with its groups. -/
def searchTcAux : Nat → Str → Option (Nat × Nat × Str × Str)
  | _, [] => none
  | i, s@(_ :: t) =>
      match matchTcAt s with
      | some (k, g1, g2) => some (i, i + k, g1, g2)
      | none => searchTcAux (i + 1) t

def searchTc (s : Str) : Option (Nat × Nat × Str × Str) := searchTcAux 0 s

/-- Spans of all non-overlapping TC id matches (re.finditer). -/
def finditerTc (s : Str) : List (Nat × Nat) :=
  finditerStr (fun t => (matchTcAt t).map (fun r => r.1)) s

/-- Left-pad with zeros to the given width (str.zfill for nonnegative text). -/
def zfill (w : Nat) (s : Str) : Str := List.replicate (w - s.length) '0' ++ s

/-- The source normalize tc id: search for the TC id pattern, strip non-digits
from the first group, zero-pad it to six digits and rebuild the
TC/NNNNNN/YYYY canonical form. -/
def normalizeTcId (value : Str) : Option Str :=
  if value = [] then none
  else
    match searchTc value with
    | none => none
    | some (_, _, g1, g2) =>
        let num := g1.filter isDigitCh
        if num = [] then none
        else some (S "TC/" ++ zfill 6 num ++ '/' :: g2)

/-- The tramitam-em-conjunto marker pattern matched at the head of the string:
the literal tramit, a run of word characters, then whitespace, em, whitespace,
conjunto (all case-insensitive). -/
def matchTramitaAt (s : Str) : Option Nat :=
  match matchT (compileKeyword (S "tramit")) s with
  | none => none
  | some c1 =>
      let r1 := s.drop c1
      let w := (r1.takeWhile isWordCh).length
      match matchT (compileKeyword (S " em conjunto")) (r1.drop w) with
      | some c2 => some (c1 + w + c2)
      | none => none

/-- Does a head-matcher succeed anywhere in the string (re.search test)? -/
def searchAny (f : Str → Option Nat) : Str → Bool
  | [] => (f []).isSome
  | s@(_ :: t) => (f s).isSome || searchAny f t

/-- The source extract tramitam group: when the tramitam marker occurs, every
normalized TC id found in the text, deduplicated in first-occurrence order. -/
def extractTramitamGroup (texto : Str) : List Str :=
  if texto = [] then []
  else if ¬ searchAny matchTramitaAt texto then []
  else
    (finditerTc texto).foldl (fun out sp =>
      match normalizeTcId (pySlice texto sp.1 sp.2) with
      | some norm => if norm ∈ out then out else out ++ [norm]
      | none => out) []

/-- A row as seen by the group map builder: process id and subject text. -/
structure TRow where
  Processo : Str
  Objeto : Str
deriving DecidableEq

/-- Normalized process id of a row, with the raw whitespace-normalized text as
fallback (the Python or-expression). -/
def rowProc (r : TRow) : Str := (normalizeTcId (wsNorm r.Processo)).getD (wsNorm r.Processo)

/-- Python dict from process id to frozenset of process ids. -/
abbrev GroupMap := List (Str × Finset Str)

def dictSet (m : GroupMap) (k : Str) (v : Finset Str) : GroupMap :=
  match m with
  | [] => [(k, v)]
  | p :: t => if p.1 = k then (k, v) :: t else p :: dictSet t k v

def dictGet : GroupMap → Str → Option (Finset Str)
  | [], _ => none
  | p :: t, k => if p.1 = k then some p.2 else dictGet t k

def dictSetAll (m : GroupMap) (ks : List Str) (v : Finset Str) : GroupMap :=
  ks.foldl (fun acc k => dictSet acc k v) m

/-- The reference list of group-key elements a row writes: the extracted ids
plus the row's own id (the frozenset of the source is its toFinset). -/
def rowKeyList (r : TRow) : List Str :=
  extractTramitamGroup (wsNorm r.Objeto) ++ [rowProc r]

/-- One iteration of the first loop of build tramitam group map. -/
def groupStep (m : GroupMap) (r : TRow) : GroupMap :=
  if rowProc r = [] then m
  else if extractTramitamGroup (wsNorm r.Objeto) = [] then m
  else dictSetAll m (rowKeyList r) (rowKeyList r).toFinset

/-- The static co-processing rules (CONJUNTO RULES keys), in source order. -/
def conjuntoKeys : List (List Str) :=
  [[S "TC/005107/2016", S "TC/005116/2016"],
   [S "TC/003428/2016", S "TC/003429/2016"]]

/-- The set of normalized process ids present in the row set. -/
def procsOf (rows : List TRow) : Finset Str :=
  (rows.filterMap (fun r => if rowProc r = [] then none else some (rowProc r))).toFinset

/-- One iteration of the static-rule loop of build tramitam group map. -/
def rulesStep (rows : List TRow) (m : GroupMap) (ks : List Str) : GroupMap :=
  if ks.toFinset ⊆ procsOf rows then dictSetAll m ks ks.toFinset else m

/-- The source build tramitam group map: one pass assigning each textual
cross-reference group to all its members, then the static rules whose ids are
all present overwrite their members. -/
def buildTramitamGroupMap (rows : List TRow) : GroupMap :=
  conjuntoKeys.foldl (rulesStep rows) (rows.foldl groupStep [])

theorem dictGet_dictSet_self (k : Str) (v : Finset Str) :
    ∀ m : GroupMap, dictGet (dictSet m k v) k = some v := by
  intro m
  induction m with
  | nil => simp [dictSet, dictGet]
  | cons p t ih =>
      by_cases h : p.1 = k
      · simp [dictSet, dictGet, h]
      · simp [dictSet, dictGet, h, ih]

theorem dictGet_dictSet_other (k k2 : Str) (v : Finset Str) (hne : k2 ≠ k) :
    ∀ m : GroupMap, dictGet (dictSet m k v) k2 = dictGet m k2 := by
  intro m
  induction m with
  | nil => simp [dictSet, dictGet, Ne.symm hne]
  | cons p t ih =>
      by_cases h : p.1 = k
      · simp [dictSet, dictGet, h, Ne.symm hne]
      · simp [dictSet, dictGet, h, ih]

theorem dictGet_dictSetAll_not_mem (k : Str) (v : Finset Str) :
    ∀ (ks : List Str) (m : GroupMap), k ∉ ks →
      dictGet (dictSetAll m ks v) k = dictGet m k := by
  intro ks
  induction ks with
  | nil => intro m _; rfl
  | cons k0 rest ih =>
      intro m hk
      have h1 : k ≠ k0 := fun he => hk (he ▸ List.mem_cons_self _ _)
      have h2 : k ∉ rest := fun he => hk (List.mem_cons_of_mem _ he)
      calc dictGet (dictSetAll (dictSet m k0 v) rest v) k
          = dictGet (dictSet m k0 v) k := ih (dictSet m k0 v) h2
        _ = dictGet m k := dictGet_dictSet_other k0 k v h1 m

theorem dictGet_dictSetAll_mem (k : Str) (v : Finset Str) :
    ∀ (ks : List Str) (m : GroupMap), k ∈ ks →
      dictGet (dictSetAll m ks v) k = some v := by
  intro ks
  induction ks with
  | nil => intro m h; simp at h
  | cons k0 rest ih =>
      intro m hk
      by_cases h : k ∈ rest
      · exact ih (dictSet m k0 v) h
      · have h1 : k = k0 := by
          rcases List.mem_cons.mp hk with h2 | h2
          · exact h2
          · exact absurd h2 h
        subst h1
        calc dictGet (dictSetAll (dictSet m k v) rest v) k
            = dictGet (dictSet m k v) k := dictGet_dictSetAll_not_mem k v rest _ h
          _ = some v := dictGet_dictSet_self k v m

/-- Invariant of the first grouping pass with respect to a fixed key set:
every member of the key set is either unassigned or assigned exactly that set. -/
def StepInv (keyA : Finset Str) (m : GroupMap) : Prop :=
  ∀ p ∈ keyA, dictGet m p = none ∨ dictGet m p = some keyA

/-- Noninterference of a row with a fixed key set: whenever the row writes a
group, that group is either disjoint from the key set or equal to it. -/
def NonInterf (keyA : Finset Str) (r : TRow) : Prop :=
  rowProc r ≠ [] → extractTramitamGroup (wsNorm r.Objeto) ≠ [] →
    ((rowKeyList r).toFinset ∩ keyA = ∅ ∨ (rowKeyList r).toFinset = keyA)

theorem groupStep_inv (keyA : Finset Str) (m : GroupMap) (r : TRow)
    (hni : NonInterf keyA r) (hinv : StepInv keyA m) :
    StepInv keyA (groupStep m r) ∧
    ((∀ p ∈ keyA, dictGet m p = some keyA) →
      ∀ p ∈ keyA, dictGet (groupStep m r) p = some keyA) := by
  unfold groupStep
  by_cases h1 : rowProc r = []
  · rw [if_pos h1]
    exact ⟨hinv, fun h => h⟩
  · rw [if_neg h1]
    by_cases h2 : extractTramitamGroup (wsNorm r.Objeto) = []
    · rw [if_pos h2]
      exact ⟨hinv, fun h => h⟩
    · rw [if_neg h2]
      rcases hni h1 h2 with hdis | heq
      · have hnot : ∀ p ∈ keyA, p ∉ rowKeyList r := by
          intro p hp hmem
          have : p ∈ (rowKeyList r).toFinset ∩ keyA :=
            Finset.mem_inter.mpr ⟨List.mem_toFinset.mpr hmem, hp⟩
          rw [hdis] at this
          exact absurd this (Finset.not_mem_empty p)
        constructor
        · intro p hp
          rw [dictGet_dictSetAll_not_mem p _ _ m (hnot p hp)]
          exact hinv p hp
        · intro h p hp
          rw [dictGet_dictSetAll_not_mem p _ _ m (hnot p hp)]
          exact h p hp
      · have hmem : ∀ p ∈ keyA, p ∈ rowKeyList r := by
          intro p hp
          exact List.mem_toFinset.mp (heq ▸ hp)
        constructor
        · intro p hp
          rw [dictGet_dictSetAll_mem p _ _ m (hmem p hp), heq]
          exact Or.inr rfl
        · intro _ p hp
          rw [dictGet_dictSetAll_mem p _ _ m (hmem p hp), heq]

theorem pass1_fold (keyA : Finset Str) :
    ∀ (rs : List TRow) (m : GroupMap),
      (∀ r ∈ rs, NonInterf keyA r) → StepInv keyA m →
      StepInv keyA (rs.foldl groupStep m) ∧
      ((∀ p ∈ keyA, dictGet m p = some keyA) →
        ∀ p ∈ keyA, dictGet (rs.foldl groupStep m) p = some keyA) := by
  intro rs
  induction rs with
  | nil => intro m _ hinv; exact ⟨hinv, fun h => h⟩
  | cons r rest ih =>
      intro m hni hinv
      obtain ⟨hinv2, hpres2⟩ :=
        groupStep_inv keyA m r (hni r (List.mem_cons_self _ _)) hinv
      obtain ⟨hinv3, hpres3⟩ :=
        ih (groupStep m r) (fun x hx => hni x (List.mem_cons_of_mem _ hx)) hinv2
      exact ⟨hinv3, fun h => hpres3 (hpres2 h)⟩

theorem pass1_hit (keyA : Finset Str) (A : TRow)
    (hkey : (rowKeyList A).toFinset = keyA)
    (hpA : rowProc A ≠ []) (hgA : extractTramitamGroup (wsNorm A.Objeto) ≠ []) :
    ∀ (rs : List TRow) (m : GroupMap), A ∈ rs →
      (∀ r ∈ rs, NonInterf keyA r) → StepInv keyA m →
      ∀ p ∈ keyA, dictGet (rs.foldl groupStep m) p = some keyA := by
  intro rs
  induction rs with
  | nil => intro m h; simp at h
  | cons r rest ih =>
      intro m hmem hni hinv
      obtain ⟨hinv2, _⟩ :=
        groupStep_inv keyA m r (hni r (List.mem_cons_self _ _)) hinv
      rcases List.mem_cons.mp hmem with hAr | hAr
      · have hstepA : ∀ p ∈ keyA, dictGet (groupStep m r) p = some keyA := by
          intro p hp
          rw [← hAr]
          unfold groupStep
          rw [if_neg hpA, if_neg hgA,
            dictGet_dictSetAll_mem p _ _ m (List.mem_toFinset.mp (hkey ▸ hp)), hkey]
        obtain ⟨_, hpres⟩ :=
          pass1_fold keyA rest (groupStep m r)
            (fun x hx => hni x (List.mem_cons_of_mem _ hx)) hinv2
        exact hpres hstepA
      · exact ih (groupStep m r) hAr (fun x hx => hni x (List.mem_cons_of_mem _ hx)) hinv2

theorem rules_preserve (keyA : Finset Str) (rows : List TRow) :
    ∀ (l : List (List Str)) (m : GroupMap),
      (∀ ks ∈ l, ks.toFinset ⊆ procsOf rows → ks.toFinset ∩ keyA = ∅) →
      (∀ p ∈ keyA, dictGet m p = some keyA) →
      ∀ p ∈ keyA, dictGet (l.foldl (rulesStep rows) m) p = some keyA := by
  intro l
  induction l with
  | nil => intro m _ h; exact h
  | cons ks rest ih =>
      intro m hdis h
      refine ih (rulesStep rows m ks) (fun x hx => hdis x (List.mem_cons_of_mem _ hx)) ?_
      intro p hp
      unfold rulesStep
      by_cases hsub : ks.toFinset ⊆ procsOf rows
      · rw [if_pos hsub]
        have hnot : p ∉ ks := by
          intro hmem
          have : p ∈ ks.toFinset ∩ keyA :=
            Finset.mem_inter.mpr ⟨List.mem_toFinset.mpr hmem, hp⟩
          rw [hdis ks (List.mem_cons_self _ _) hsub] at this
          exact absurd this (Finset.not_mem_empty p)
        rw [dictGet_dictSetAll_not_mem p _ _ m hnot]
        exact h p hp
      · rw [if_neg hsub]
        exact h p hp

/-- C5 amended: if row A's subject text carries the tramitam-em-conjunto
marker and an embedded reference to process id B, then - provided no other
row's extracted group overlaps A's group other than coinciding with it, and no
static co-processing rule whose ids are all present overlaps it - the group
map assigns the same group set, containing both ids, to A's id and to B's id,
even though B's own text contains no reference to A. -/
theorem c5_group_symmetry (rows : List TRow) (A : TRow) (pB : Str)
    (hA : A ∈ rows)
    (hpA : rowProc A ≠ [])
    (hgA : extractTramitamGroup (wsNorm A.Objeto) ≠ [])
    (hB : pB ∈ extractTramitamGroup (wsNorm A.Objeto))
    (hni : ∀ r ∈ rows, NonInterf ((rowKeyList A).toFinset) r)
    (hrules : ∀ ks ∈ conjuntoKeys, ks.toFinset ⊆ procsOf rows →
      ks.toFinset ∩ (rowKeyList A).toFinset = ∅) :
    rowProc A ∈ (rowKeyList A).toFinset ∧
    pB ∈ (rowKeyList A).toFinset ∧
    dictGet (buildTramitamGroupMap rows) (rowProc A) = some ((rowKeyList A).toFinset) ∧
    dictGet (buildTramitamGroupMap rows) pB = some ((rowKeyList A).toFinset) := by
  have hinv0 : StepInv ((rowKeyList A).toFinset) [] := by
    intro p _
    exact Or.inl rfl
  have hfull : ∀ p ∈ (rowKeyList A).toFinset,
      dictGet (rows.foldl groupStep []) p = some ((rowKeyList A).toFinset) :=
    pass1_hit ((rowKeyList A).toFinset) A rfl hpA hgA rows [] hA hni hinv0
  have hfin : ∀ p ∈ (rowKeyList A).toFinset,
      dictGet (buildTramitamGroupMap rows) p = some ((rowKeyList A).toFinset) :=
    rules_preserve ((rowKeyList A).toFinset) rows conjuntoKeys
      (rows.foldl groupStep []) hrules hfull
  have hmemA : rowProc A ∈ (rowKeyList A).toFinset := by
    simp [rowKeyList]
  have hmemB : pB ∈ (rowKeyList A).toFinset := by
    simp [rowKeyList]
    exact Or.inl hB
  exact ⟨hmemA, hmemB, hfin _ hmemA, hfin _ hmemB⟩

/-- Row A of the C5 examples: its subject references process B. -/
def c5RowA : TRow := ⟨S "TC/000001/2020", S "Tramitam em conjunto com o TC 000002/2020"⟩

/-- Row C of the C5 counterexample: a second row that also references B. -/
def c5RowC : TRow := ⟨S "TC/000003/2020", S "Tramitam em conjunto com o TC 000002/2020"⟩

/-- C5 counterexample: with a second row also referencing B, its later write
overwrites B's entry, so A and B no longer map to the same group set even
though A's text references B. -/
theorem c5_counterexample :
    extractTramitamGroup (wsNorm c5RowA.Objeto) = [S "TC/000002/2020"] ∧
    dictGet (buildTramitamGroupMap [c5RowA, c5RowC]) (S "TC/000001/2020") ≠
      dictGet (buildTramitamGroupMap [c5RowA, c5RowC]) (S "TC/000002/2020") := by
  refine ⟨by decide, by decide⟩

/-- Witness for C5 amended on a one-row set where A references B. -/
theorem c5_group_symmetry_witness :
    c5RowA ∈ [c5RowA] ∧
    (S "TC/000002/2020") ∈ extractTramitamGroup (wsNorm c5RowA.Objeto) ∧
    dictGet (buildTramitamGroupMap [c5RowA]) (rowProc c5RowA) =
      some ((rowKeyList c5RowA).toFinset) ∧
    dictGet (buildTramitamGroupMap [c5RowA]) (S "TC/000002/2020") =
      some ((rowKeyList c5RowA).toFinset) := by
  have h := c5_group_symmetry [c5RowA] c5RowA (S "TC/000002/2020")
    (List.mem_cons_self _ _) (by decide) (by decide) (by decide)
    (by
      intro r hr h1 h2
      simp at hr
      subst hr
      exact Or.inr rfl)
    (by decide)
  exact ⟨List.mem_cons_self _ _, by decide, h.2.2.1, h.2.2.2⟩

/-!  Dates and session metadata (claims C3 and C7). -/

/-- A Python datetime date (year, month, day), year 1..9999. -/
structure PyDate where
  y : Nat
  m : Nat
  d : Nat
deriving DecidableEq

def isLeap (y : Nat) : Bool := y % 4 = 0 ∧ (y % 100 ≠ 0 ∨ y % 400 = 0)

def daysInMonth (y m : Nat) : Nat :=
  if m = 2 then (if isLeap y then 29 else 28)
  else if m = 4 ∨ m = 6 ∨ m = 9 ∨ m = 11 then 30
  else 31

/-- Successor date in the proleptic Gregorian calendar. -/
def nextDay (p : PyDate) : PyDate :=
  if p.d < daysInMonth p.y p.m then ⟨p.y, p.m, p.d + 1⟩
  else if p.m < 12 then ⟨p.y, p.m + 1, 1⟩
  else ⟨p.y + 1, 1, 1⟩

/-- Date plus a nonnegative timedelta in days. -/
def addDays (p : PyDate) : Nat → PyDate
  | 0 => p
  | n + 1 => addDays (nextDay p) n

/-- Days before the first of the given month (1-based), in a year of the
given leapness. -/
def daysBeforeMonth (m : Nat) (leap : Bool) : Nat :=
  ([0, 0, 31, 59, 90, 120, 151, 181, 212, 243, 273, 304, 334].getD m 0) +
  (if leap ∧ 3 ≤ m then 1 else 0)

/-- Days contributed by the complete years before year y. -/
def yearDays (y : Nat) : Nat :=
  365 * (y - 1) + (y - 1) / 4 + (y - 1) / 400 - (y - 1) / 100

/-- Rata die day number (0001-01-01 is day 1). -/
def rataDie (p : PyDate) : Nat :=
  yearDays p.y + daysBeforeMonth p.m (isLeap p.y) + p.d

/-- Python date.weekday: Monday is 0 through Sunday 6 (0001-01-01 was a
Monday in the proleptic Gregorian calendar). -/
def weekdayOf (p : PyDate) : Nat := (rataDie p + 6) % 7

/-- Year and month of the month following the given date. -/
def nextMonthOf (p : PyDate) : Nat × Nat :=
  if p.m = 12 then (p.y + 1, 1) else (p.y, p.m + 1)

/-- The source first weekday of next month: day one of the following month
plus the mod-7 delta to the requested weekday. -/
def firstWeekdayOfNextMonth (p : PyDate) (w : Nat) : PyDate :=
  addDays ⟨(nextMonthOf p).1, (nextMonthOf p).2, 1⟩
    ((w + 7 - weekdayOf ⟨(nextMonthOf p).1, (nextMonthOf p).2, 1⟩) % 7)

/-- The source nth weekday of next month. -/
def nthWeekdayOfNextMonth (p : PyDate) (w n : Nat) : PyDate :=
  addDays (firstWeekdayOfNextMonth p w) (7 * (n - 1))

/-- The source weekday of next week: Monday of the next ISO week plus the
requested weekday offset. -/
def weekdayOfNextWeek (today : PyDate) (w : Nat) : PyDate :=
  addDays today ((7 - weekdayOf today) + w)

def digitChar : Nat → Char
  | 0 => '0' | 1 => '1' | 2 => '2' | 3 => '3' | 4 => '4'
  | 5 => '5' | 6 => '6' | 7 => '7' | 8 => '8' | 9 => '9'
  | _ => '*'

/-- Two-digit zero-padded decimal (strftime d and m fields). -/
def pad2 (n : Nat) : Str := [digitChar (n / 10 % 10), digitChar (n % 10)]

/-- Four-digit zero-padded decimal (strftime Y field for years 1000..9999). -/
def pad4 (n : Nat) : Str :=
  [digitChar (n / 1000 % 10), digitChar (n / 100 % 10),
   digitChar (n / 10 % 10), digitChar (n % 10)]

/-- The source fmt date br: DD/MM/YYYY. -/
def fmtDate (p : PyDate) : Str := pad2 p.d ++ '/' :: pad2 p.m ++ '/' :: pad4 p.y

/-- Split on the slash character (the literal separators of the date format). -/
def splitSlash : Str → List Str
  | [] => [[]]
  | c :: t =>
      if c = '/' then [] :: splitSlash t
      else
        match splitSlash t with
        | [] => [[c]]
        | h :: r => (c :: h) :: r

/-- The strptime d directive: one digit 1-9, or two digits forming 01-31. -/
def readDayField (p : Str) : Option Nat :=
  match p with
  | [c] => if isDigitCh c ∧ 1 ≤ digitVal c then some (digitVal c) else none
  | [c1, c2] =>
      if isDigitCh c1 ∧ isDigitCh c2 then
        if 1 ≤ 10 * digitVal c1 + digitVal c2 ∧ 10 * digitVal c1 + digitVal c2 ≤ 31 then
          some (10 * digitVal c1 + digitVal c2)
        else none
      else none
  | _ => none

/-- The strptime m directive: one digit 1-9, or two digits forming 01-12. -/
def readMonthField (p : Str) : Option Nat :=
  match p with
  | [c] => if isDigitCh c ∧ 1 ≤ digitVal c then some (digitVal c) else none
  | [c1, c2] =>
      if isDigitCh c1 ∧ isDigitCh c2 then
        if 1 ≤ 10 * digitVal c1 + digitVal c2 ∧ 10 * digitVal c1 + digitVal c2 ≤ 12 then
          some (10 * digitVal c1 + digitVal c2)
        else none
      else none
  | _ => none

/-- The strptime Y directive: exactly four digits. -/
def readYearField (p : Str) : Option Nat :=
  match p with
  | [c1, c2, c3, c4] =>
      if isDigitCh c1 ∧ isDigitCh c2 ∧ isDigitCh c3 ∧ isDigitCh c4 then
        some (1000 * digitVal c1 + 100 * digitVal c2 + 10 * digitVal c3 + digitVal c4)
      else none
  | _ => none

/-- Datetime construction validity, as checked by datetime.strptime. -/
def validDateB (y m d : Nat) : Bool :=
  decide (1 ≤ y) && decide (y ≤ 9999) && decide (1 ≤ m) && decide (m ≤ 12) &&
  decide (1 ≤ d) && decide (d ≤ daysInMonth y m)

/-- The source parse date br: strptime of stripped input against DD/MM/YYYY,
None on failure. -/
def parseDateBr (s : Str) : Option PyDate :=
  match splitSlash (stripWs s) with
  | [p1, p2, p3] =>
      match readDayField p1, readMonthField p2, readYearField p3 with
      | some d, some m, some y => if validDateB y m d then some ⟨y, m, d⟩ else none
      | _, _, _ => none
  | _ => none

/-- Digit tail of the Python int literal grammar: digits with single
underscores between digits. -/
def intDigitsRest : Str → Bool
  | [] => true
  | '_' :: c :: t => isDigitCh c && intDigitsRest t
  | c :: t => isDigitCh c && intDigitsRest t

/-- Acceptance of Python int() applied to a string: optional surrounding
whitespace, optional sign, then a nonempty digit group. -/
def pyIntOk (s : Str) : Bool :=
  match stripWs s with
  | '+' :: c :: r => isDigitCh c && intDigitsRest r
  | '-' :: c :: r => isDigitCh c && intDigitsRest r
  | c :: r => isDigitCh c && intDigitsRest r
  | [] => false

/-- The runtime ordinal marker appended by the source (the file stores the
feminine ordinal sign in mojibake form, so at runtime it is the two-character
sequence 0x00C2 0x00AA; the document renderer later repairs it to 0x00AA). -/
def mojibakeOrd : Str := [Char.ofNat 0xC2, Char.ofNat 0xAA]

/-- The session metadata record of the source. -/
structure SessionMeta where
  numero : Str
  tipo : Str
  formato : Str
  competencia : Str
  dataAbertura : Str
  dataEncerramento : Str
  horario : Str
  localTxt : Str
deriving DecidableEq

def tipoNorm (m : SessionMeta) : Str := toLowerStr (stripWs m.tipo)

def compNorm (m : SessionMeta) : Str := toLowerStr (stripWs m.competencia)

/-- The formato canonicalisation dictionary of normalizar. -/
def formatoCanon (f : Str) : Str :=
  let fl := toLowerStr (stripWs f)
  if fl = S "nao presencial" then S "nao-presencial"
  else if fl = S "nao-presencial" then S "nao-presencial"
  else if fl = S "presencial" then S "presencial"
  else fl

/-- The numero step of normalizar: append the ordinal marker when it is
absent and the dot-stripped text parses as a Python int. -/
def numeroCanon (n : Str) : Str :=
  if containsSub n mojibakeOrd then n
  else if pyIntOk (n.filter (fun c => c ≠ '.')) then n ++ mojibakeOrd
  else n

/-- The opening-date computation of normalizar, run only when no closing date
was supplied: in-person plenary uses the Wednesday of the week after the
current date; remote ordinary the first Tuesday of the month after the
publication date; remote extraordinary the second. -/
def aberturaCalcOf (m : SessionMeta) (now : PyDate) : Option PyDate :=
  if m.dataEncerramento = [] then
    if formatoCanon m.formato = S "presencial" ∧ compNorm m = S "pleno" then
      some (weekdayOfNextWeek now 2)
    else
      match (if m.dataAbertura = [] then none else parseDateBr m.dataAbertura) with
      | some p =>
          if formatoCanon m.formato = S "nao-presencial" ∧
             startsWithStr (tipoNorm m) (S "ordin") then
            some (firstWeekdayOfNextMonth p 1)
          else if formatoCanon m.formato = S "nao-presencial" ∧
              startsWithStr (tipoNorm m) (S "extra") then
            some (nthWeekdayOfNextMonth p 1 2)
          else none
      | none => none
  else none

/-- The final opening date: the computed date if any, then the environment
forcing override with absolute precedence. -/
def aberturaFinal (m : SessionMeta) (envAb : Str) (now : PyDate) : Str :=
  match (if stripWs envAb = [] then none else parseDateBr (stripWs envAb)) with
  | some d => fmtDate d
  | none =>
      match aberturaCalcOf m now with
      | some d => fmtDate d
      | none => m.dataAbertura

/-- The final closing date: the environment forcing override when parseable;
otherwise, when no closing date was supplied, the final opening date plus 15
calendar days (blank when the opening date does not parse back). -/
def encerramentoFinal (m : SessionMeta) (envAb envEn : Str) (now : PyDate) : Str :=
  if stripWs envEn ≠ [] then
    match parseDateBr (stripWs envEn) with
    | some d => fmtDate d
    | none => m.dataEncerramento
  else if m.dataEncerramento = [] then
    match parseDateBr (aberturaFinal m envAb now) with
    | some b => fmtDate (addDays b 15)
    | none => []
  else m.dataEncerramento

/-- The source SessionMeta.normalizar, with the two environment forcing
variables passed explicitly and the current date as a parameter. -/
def normalizar (m : SessionMeta) (envAb envEn : Str) (now : PyDate) : SessionMeta :=
  { m with tipo := tipoNorm m, formato := formatoCanon m.formato,
           competencia := compNorm m, numero := numeroCanon m.numero,
           dataAbertura := aberturaFinal m envAb now,
           dataEncerramento := encerramentoFinal m envAb envEn now }

theorem daysInMonth_le (y m : Nat) : daysInMonth y m ≤ 31 := by
  unfold daysInMonth
  split_ifs <;> omega

theorem daysInMonth_ge (y m : Nat) : 28 ≤ daysInMonth y m := by
  unfold daysInMonth
  split_ifs <;> omega

theorem addDays_in_month :
    ∀ (n y m d : Nat), 1 ≤ d → d + n ≤ daysInMonth y m →
      addDays ⟨y, m, d⟩ n = ⟨y, m, d + n⟩ := by
  intro n
  induction n with
  | zero => intro y m d _ _; rfl
  | succ k ih =>
      intro y m d h1 h2
      have hlt : d < daysInMonth y m := by omega
      have hnd : nextDay ⟨y, m, d⟩ = ⟨y, m, d + 1⟩ := by simp [nextDay, hlt]
      show addDays (nextDay ⟨y, m, d⟩) k = _
      rw [hnd, ih y m (d + 1) (by omega) (by omega)]
      congr 1
      omega

theorem rataDie_day (y m a b : Nat) : rataDie ⟨y, m, a + b⟩ = rataDie ⟨y, m, a⟩ + b := by
  simp only [rataDie]
  omega

theorem weekday_addDays_in_month (y m d delta : Nat) :
    weekdayOf ⟨y, m, d + delta⟩ = (weekdayOf ⟨y, m, d⟩ + delta) % 7 := by
  unfold weekdayOf
  rw [rataDie_day y m d delta]
  omega

theorem nextMonthOf_bounds (p : PyDate) (h3 : 1 ≤ p.m) (h4 : p.m ≤ 12) :
    1 ≤ (nextMonthOf p).2 ∧ (nextMonthOf p).2 ≤ 12 ∧
    p.y ≤ (nextMonthOf p).1 ∧ (nextMonthOf p).1 ≤ p.y + 1 ∧
    (p.m ≤ 11 → (nextMonthOf p).1 = p.y) := by
  unfold nextMonthOf
  split_ifs with h <;> simp <;> omega

theorem firstTuesday_spec (p : PyDate) (y2 m2 : Nat) (hnm : nextMonthOf p = (y2, m2)) :
    ∃ delta, delta < 7 ∧ firstWeekdayOfNextMonth p 1 = ⟨y2, m2, 1 + delta⟩ ∧
      weekdayOf (firstWeekdayOfNextMonth p 1) = 1 := by
  have hw : weekdayOf ⟨y2, m2, 1⟩ < 7 := Nat.mod_lt _ (by omega)
  refine ⟨(1 + 7 - weekdayOf ⟨y2, m2, 1⟩) % 7, Nat.mod_lt _ (by omega), ?_, ?_⟩
  · unfold firstWeekdayOfNextMonth
    rw [hnm]
    dsimp only
    exact addDays_in_month _ y2 m2 1 (by omega)
      (by have := daysInMonth_ge y2 m2; have := Nat.mod_lt (1 + 7 - weekdayOf ⟨y2, m2, 1⟩) (show 0 < 7 by omega); omega)
  · unfold firstWeekdayOfNextMonth
    rw [hnm]
    dsimp only
    rw [addDays_in_month _ y2 m2 1 (by omega)
      (by have := daysInMonth_ge y2 m2; have := Nat.mod_lt (1 + 7 - weekdayOf ⟨y2, m2, 1⟩) (show 0 < 7 by omega); omega)]
    rw [weekday_addDays_in_month y2 m2 1 _]
    omega

theorem digitChar_spec (k : Nat) (hk : k ≤ 9) :
    isDigitCh (digitChar k) = true ∧ digitVal (digitChar k) = k ∧
    digitChar k ≠ '/' ∧ isSpaceCh (digitChar k) = false := by
  interval_cases k <;> exact ⟨by decide, by decide, by decide, by decide⟩

theorem slash_not_mem_pad2 (n : Nat) : '/' ∉ pad2 n := by
  have ha := (digitChar_spec (n / 10 % 10) (by omega)).2.2.1
  have hb := (digitChar_spec (n % 10) (by omega)).2.2.1
  intro hmem
  simp [pad2] at hmem
  rcases hmem with h | h
  · exact ha h.symm
  · exact hb h.symm

theorem slash_not_mem_pad4 (n : Nat) : '/' ∉ pad4 n := by
  have ha := (digitChar_spec (n / 1000 % 10) (by omega)).2.2.1
  have hb := (digitChar_spec (n / 100 % 10) (by omega)).2.2.1
  have hc := (digitChar_spec (n / 10 % 10) (by omega)).2.2.1
  have hd := (digitChar_spec (n % 10) (by omega)).2.2.1
  intro hmem
  simp [pad4] at hmem
  rcases hmem with h | h | h | h
  · exact ha h.symm
  · exact hb h.symm
  · exact hc h.symm
  · exact hd h.symm

theorem pad2_no_ws (n : Nat) : ∀ c ∈ pad2 n, isSpaceCh c = false := by
  intro c hc
  have ha := (digitChar_spec (n / 10 % 10) (by omega)).2.2.2
  have hb := (digitChar_spec (n % 10) (by omega)).2.2.2
  simp [pad2] at hc
  rcases hc with rfl | rfl
  · exact ha
  · exact hb

theorem pad4_no_ws (n : Nat) : ∀ c ∈ pad4 n, isSpaceCh c = false := by
  intro c hc
  have ha := (digitChar_spec (n / 1000 % 10) (by omega)).2.2.2
  have hb := (digitChar_spec (n / 100 % 10) (by omega)).2.2.2
  have hc2 := (digitChar_spec (n / 10 % 10) (by omega)).2.2.2
  have hd := (digitChar_spec (n % 10) (by omega)).2.2.2
  simp [pad4] at hc
  rcases hc with rfl | rfl | rfl | rfl
  · exact ha
  · exact hb
  · exact hc2
  · exact hd

theorem fmt_no_ws (p : PyDate) : ∀ c ∈ fmtDate p, isSpaceCh c = false := by
  intro c hc
  unfold fmtDate at hc
  rcases List.mem_append.mp hc with h1 | h1
  · rcases List.mem_append.mp h1 with h2 | h2
    · exact pad2_no_ws p.d c h2
    · rcases List.mem_cons.mp h2 with h3 | h3
      · subst h3; decide
      · exact pad2_no_ws p.m c h3
  · rcases List.mem_cons.mp h1 with h3 | h3
    · subst h3; decide
    · exact pad4_no_ws p.y c h3

theorem stripWs_eq_self (l : Str) (h : ∀ c ∈ l, isSpaceCh c = false) : stripWs l = l := by
  unfold stripWs
  have h1 : l.dropWhile isSpaceCh = l := by
    cases l with
    | nil => rfl
    | cons c t => simp [List.dropWhile_cons, h c (List.mem_cons_self _ _)]
  rw [h1]
  have h2 : l.reverse.dropWhile isSpaceCh = l.reverse := by
    cases hr : l.reverse with
    | nil => rfl
    | cons c t =>
        have hcmem : c ∈ l := by
          rw [← List.mem_reverse, hr]
          exact List.mem_cons_self _ _
        simp [List.dropWhile_cons, h c hcmem]
  rw [h2, List.reverse_reverse]

theorem splitSlash_no_slash : ∀ l : Str, '/' ∉ l → splitSlash l = [l] := by
  intro l
  induction l with
  | nil => intro _; rfl
  | cons c t ih =>
      intro h
      have hc : c ≠ '/' := fun he => h (he ▸ List.mem_cons_self _ _)
      have ht : '/' ∉ t := fun he => h (List.mem_cons_of_mem _ he)
      simp [splitSlash, hc, ih ht]

theorem splitSlash_append : ∀ (a rest : Str), '/' ∉ a →
    splitSlash (a ++ '/' :: rest) = a :: splitSlash rest := by
  intro a
  induction a with
  | nil => intro rest _; simp [splitSlash]
  | cons c a2 ih =>
      intro rest h
      have hc : c ≠ '/' := fun he => h (he ▸ List.mem_cons_self _ _)
      have ha : '/' ∉ a2 := fun he => h (List.mem_cons_of_mem _ he)
      simp [splitSlash, hc, ih rest ha]

theorem pad2_readDay (n : Nat) (h1 : 1 ≤ n) (h2 : n ≤ 31) :
    readDayField (pad2 n) = some n := by
  have ha := digitChar_spec (n / 10 % 10) (by omega)
  have hb := digitChar_spec (n % 10) (by omega)
  have hv : 10 * (n / 10 % 10) + n % 10 = n := by omega
  simp [pad2, readDayField, ha.1, hb.1, ha.2.1, hb.2.1, hv, h1, h2]

theorem pad2_readMonth (n : Nat) (h1 : 1 ≤ n) (h2 : n ≤ 12) :
    readMonthField (pad2 n) = some n := by
  have ha := digitChar_spec (n / 10 % 10) (by omega)
  have hb := digitChar_spec (n % 10) (by omega)
  have hv : 10 * (n / 10 % 10) + n % 10 = n := by omega
  simp [pad2, readMonthField, ha.1, hb.1, ha.2.1, hb.2.1, hv, h1, h2]

theorem pad4_readYear (n : Nat) (h2 : n ≤ 9999) :
    readYearField (pad4 n) = some n := by
  have ha := digitChar_spec (n / 1000 % 10) (by omega)
  have hb := digitChar_spec (n / 100 % 10) (by omega)
  have hc := digitChar_spec (n / 10 % 10) (by omega)
  have hd := digitChar_spec (n % 10) (by omega)
  have hv : 1000 * (n / 1000 % 10) + 100 * (n / 100 % 10) + 10 * (n / 10 % 10) + n % 10 = n := by
    omega
  simp [pad4, readYearField, ha.1, hb.1, hc.1, hd.1, ha.2.1, hb.2.1, hc.2.1, hd.2.1, hv]

theorem parse_fmt (p : PyDate) (h1 : 1 ≤ p.d) (h2 : p.d ≤ daysInMonth p.y p.m)
    (h3 : 1 ≤ p.m) (h4 : p.m ≤ 12) (h5 : 1 ≤ p.y) (h6 : p.y ≤ 9999) :
    parseDateBr (fmtDate p) = some p := by
  have hd31 : p.d ≤ 31 := le_trans h2 (daysInMonth_le p.y p.m)
  have hstrip : stripWs (fmtDate p) = fmtDate p := stripWs_eq_self _ (fmt_no_ws p)
  have hsplit : splitSlash (fmtDate p) = [pad2 p.d, pad2 p.m, pad4 p.y] := by
    unfold fmtDate
    rw [List.append_assoc, List.cons_append,
      splitSlash_append _ _ (slash_not_mem_pad2 p.d),
      splitSlash_append _ _ (slash_not_mem_pad2 p.m),
      splitSlash_no_slash _ (slash_not_mem_pad4 p.y)]
  have hvb : validDateB p.y p.m p.d = true := by
    simp only [validDateB, Bool.and_eq_true, decide_eq_true_eq]
    omega
  unfold parseDateBr
  rw [hstrip, hsplit]
  simp only [pad2_readDay p.d h1 hd31, pad2_readMonth p.m h3 h4, pad4_readYear p.y h6, hvb,
    if_true]

theorem parse_valid (s : Str) (p : PyDate) (h : parseDateBr s = some p) :
    1 ≤ p.y ∧ p.y ≤ 9999 ∧ 1 ≤ p.m ∧ p.m ≤ 12 ∧ 1 ≤ p.d ∧ p.d ≤ daysInMonth p.y p.m := by
  unfold parseDateBr at h
  split at h
  · split at h
    · split at h
      · rename_i y m d heq hv
        injection h with h2
        subst h2
        simp only [validDateB, Bool.and_eq_true, decide_eq_true_eq] at hv
        dsimp only
        omega
      · exact absurd h (by simp)
    · exact absurd h (by simp)
  · exact absurd h (by simp)

/-- C3 counterexample: with an explicitly supplied closing date, a remote
ordinary session with a parseable opening date keeps its opening date
unchanged, instead of receiving the first Tuesday of the following month as
the claim states for every such SessionMeta. -/
def c3MetaW : SessionMeta :=
  ⟨S "71", S "ordinaria", S "nao-presencial", S "pleno", S "30/04/2025", [],
   S "9h30min.", []⟩

def c3MetaC : SessionMeta :=
  ⟨S "71", S "ordinaria", S "nao-presencial", S "pleno", S "30/04/2025", S "31/12/2025",
   S "9h30min.", []⟩

def d0 : PyDate := ⟨2025, 1, 1⟩

theorem c3_counterexample :
    formatoCanon c3MetaC.formato = S "nao-presencial" ∧
    startsWithStr (tipoNorm c3MetaC) (S "ordin") = true ∧
    parseDateBr c3MetaC.dataAbertura = some ⟨2025, 4, 30⟩ ∧
    (normalizar c3MetaC [] [] d0).dataAbertura = S "30/04/2025" ∧
    (normalizar c3MetaC [] [] d0).dataAbertura ≠
      fmtDate (firstWeekdayOfNextMonth ⟨2025, 4, 30⟩ 1) := by
  refine ⟨by decide, by decide, by decide, by decide, by decide⟩

/-- C3 amended: for a remote (nao-presencial) ordinary session whose opening
(publication) date parses, and whose closing date was NOT explicitly supplied,
normalize sets the opening date to the first Tuesday of the month following
the publication date and the closing date to that date plus 15 calendar days
(for publication years in the four-digit strftime range, excluding the
December 9999 overflow edge). -/
theorem c3_remote_ordinary_dates (m : SessionMeta) (now pub : PyDate)
    (hfor : formatoCanon m.formato = S "nao-presencial")
    (htip : startsWithStr (tipoNorm m) (S "ordin") = true)
    (hpub : parseDateBr m.dataAbertura = some pub)
    (henc : m.dataEncerramento = [])
    (hy : 1000 ≤ pub.y)
    (hedge : ¬ (pub.y = 9999 ∧ pub.m = 12)) :
    (normalizar m [] [] now).dataAbertura = fmtDate (firstWeekdayOfNextMonth pub 1) ∧
    (normalizar m [] [] now).dataEncerramento =
      fmtDate (addDays (firstWeekdayOfNextMonth pub 1) 15) ∧
    weekdayOf (firstWeekdayOfNextMonth pub 1) = 1 ∧
    (firstWeekdayOfNextMonth pub 1).d ≤ 7 := by
  obtain ⟨hpy1, hpy2, hpm1, hpm2, hpd1, hpd2⟩ := parse_valid _ _ hpub
  have hne : m.dataAbertura ≠ [] := by
    intro he
    rw [he] at hpub
    have hz : parseDateBr ([] : Str) = none := rfl
    rw [hz] at hpub
    cases hpub
  have hbounds := nextMonthOf_bounds pub hpm1 hpm2
  obtain ⟨y2, m2, hnm⟩ : ∃ y2 m2, nextMonthOf pub = (y2, m2) := ⟨_, _, rfl⟩
  have hm2a : 1 ≤ m2 := by rw [hnm] at hbounds; exact hbounds.1
  have hm2b : m2 ≤ 12 := by rw [hnm] at hbounds; exact hbounds.2.1
  have hy2a : 1000 ≤ y2 := by rw [hnm] at hbounds; omega
  have hy2b : y2 ≤ 9999 := by
    rw [hnm] at hbounds
    by_cases h12 : pub.m ≤ 11
    · have := hbounds.2.2.2.2 h12
      omega
    · have hm12 : pub.m = 12 := by omega
      have : pub.y ≤ 9998 := by
        by_contra hcon
        exact hedge ⟨by omega, hm12⟩
      omega
  obtain ⟨delta, hdlt, hform, hwd⟩ := firstTuesday_spec pub y2 m2 hnm
  have hdim := daysInMonth_ge y2 m2
  have hftd : (firstWeekdayOfNextMonth pub 1).d ≤ 7 := by rw [hform]; dsimp only; omega
  have hcalc : aberturaCalcOf m now = some (firstWeekdayOfNextMonth pub 1) := by
    unfold aberturaCalcOf
    rw [if_pos henc]
    have hnp : ¬(formatoCanon m.formato = S "presencial" ∧ compNorm m = S "pleno") := by
      rintro ⟨hp1, -⟩
      rw [hfor] at hp1
      exact absurd hp1 (by decide)
    rw [if_neg hnp, if_neg hne, hpub]
    simp only []
    rw [if_pos ⟨hfor, htip⟩]
  have hab : aberturaFinal m [] now = fmtDate (firstWeekdayOfNextMonth pub 1) := by
    unfold aberturaFinal
    have hswe : stripWs ([] : Str) = [] := rfl
    simp [hswe, hcalc]
  have hparse2 : parseDateBr (fmtDate (firstWeekdayOfNextMonth pub 1)) =
      some (firstWeekdayOfNextMonth pub 1) := by
    refine parse_fmt _ ?_ ?_ ?_ ?_ ?_ ?_ <;> rw [hform] <;> dsimp only <;> omega
  have henc2 : encerramentoFinal m [] [] now =
      fmtDate (addDays (firstWeekdayOfNextMonth pub 1) 15) := by
    unfold encerramentoFinal
    have hswe : stripWs ([] : Str) = [] := rfl
    simp [hswe, henc, hab, hparse2]
  exact ⟨hab, henc2, hwd, hftd⟩

/-- Witness for C3 amended at the concrete spec example (publication date
30/04/2025: opening 06/05/2025, the first Tuesday of May 2025, and closing
21/05/2025, fifteen days later). -/
theorem c3_remote_ordinary_dates_witness :
    (normalizar c3MetaW [] [] d0).dataAbertura = S "06/05/2025" ∧
    (normalizar c3MetaW [] [] d0).dataEncerramento = S "21/05/2025" ∧
    weekdayOf (firstWeekdayOfNextMonth ⟨2025, 4, 30⟩ 1) = 1 ∧
    (firstWeekdayOfNextMonth ⟨2025, 4, 30⟩ 1).d ≤ 7 := by
  have h := c3_remote_ordinary_dates c3MetaW d0 ⟨2025, 4, 30⟩ (by decide) (by decide)
    (by decide) rfl (by decide) (by decide)
  refine ⟨?_, ?_, h.2.2.1, h.2.2.2⟩
  · rw [h.1]; decide
  · rw [h.2.1]; decide

/-- C7 counterexample: the session number 71 does not become the string 71
followed by the feminine ordinal sign; it becomes 71 followed by the
mojibake-encoded two-character marker (which the renderer later repairs). -/
theorem c7_counterexample :
    (normalizar c3MetaW [] [] d0).numero ≠ S "71ª" ∧
    (normalizar c3MetaW [] [] d0).numero = S "71" ++ mojibakeOrd := by
  refine ⟨by decide, by decide⟩

/-- C7 amended: normalize appends the source's (mojibake-encoded) ordinal
marker to a session number exactly when the marker is absent and the
dot-stripped number parses as a Python int; otherwise the number is unchanged.
Already-suffixed numbers (whether with the true ordinal sign or the mojibake
marker) and non-numeric numbers pass through unchanged. -/
theorem c7_numero_marker (m : SessionMeta) (envAb envEn : Str) (now : PyDate) :
    (containsSub m.numero mojibakeOrd = false →
      pyIntOk (m.numero.filter (fun c => c ≠ '.')) = true →
      (normalizar m envAb envEn now).numero = m.numero ++ mojibakeOrd) ∧
    (containsSub m.numero mojibakeOrd = true →
      (normalizar m envAb envEn now).numero = m.numero) ∧
    (pyIntOk (m.numero.filter (fun c => c ≠ '.')) = false →
      (normalizar m envAb envEn now).numero = m.numero) := by
  have hn : (normalizar m envAb envEn now).numero = numeroCanon m.numero := rfl
  refine ⟨?_, ?_, ?_⟩
  · intro h1 h2
    rw [hn]
    unfold numeroCanon
    rw [if_neg (by simp [h1]), if_pos h2]
  · intro h1
    rw [hn]
    unfold numeroCanon
    rw [if_pos h1]
  · intro h1
    rw [hn]
    unfold numeroCanon
    by_cases hc : containsSub m.numero mojibakeOrd = true
    · rw [if_pos hc]
    · rw [if_neg hc, if_neg ?_]
      intro hcon
      rw [h1] at hcon
      exact absurd hcon (by simp)

/-- Witness for C7 amended on the dotted numeral 3.385 and the suffixed 71. -/
theorem c7_numero_marker_witness :
    (normalizar ⟨S "3.385", S "o", S "p", S "c", [], [], [], []⟩ [] [] d0).numero =
      S "3.385" ++ mojibakeOrd ∧
    (normalizar ⟨S "71ª", S "o", S "p", S "c", [], [], [], []⟩ [] [] d0).numero = S "71ª" :=
  ⟨(c7_numero_marker ⟨S "3.385", S "o", S "p", S "c", [], [], [], []⟩ [] [] d0).1
      (by decide) (by decide),
   (c7_numero_marker ⟨S "71ª", S "o", S "p", S "c", [], [], [], []⟩ [] [] d0).2.2
      (by decide)⟩

/-!  Spreadsheet ingestion (claims C8 and C9).  A spreadsheet is modelled from
the point where pandas has read it: a header list and a rectangular grid of
optional text cells (None models NaN). -/

/-- A spreadsheet cell: absent (NaN) or a text value. -/
abbrev Cell := Option Str

def cellRaw (c : Cell) : Str := c.getD []

def wsCell (c : Cell) : Str := wsNorm (cellRaw c)

def getCell (row : List Cell) (i : Nat) : Cell := (row.get? i).getD none

/-- The initials-to-name table (the two names containing accents are stored in
mojibake form in the source file and reproduced here codepoint for
codepoint). -/
def joaoAntonioMoji : Str :=
  S "JO" ++ [Char.ofNat 0xC3, Char.ofNat 0x83] ++ S "O ANT" ++
  [Char.ofNat 0xC3, Char.ofNat 0x94] ++ S "NIO"

def nameMap : List (Str × Str) :=
  [(S "ET", S "EDUARDO TUMA"),
   (S "DD", S "DOMINGOS DISSEI"),
   (S "JA", joaoAntonioMoji),
   (S "RT", S "RICARDO TORRES"),
   (S "RB", S "ROBERTO BRAGUIM")]

def strAssoc (l : List (Str × Str)) (k : Str) : Option Str :=
  match l with
  | [] => none
  | (a, v) :: t => if a = k then some v else strAssoc t k

/-- The relator-to-reviewer pairing table. -/
def duoRelatorRevisor : List (Str × Str) :=
  [(S "ricardo torres", S "ROBERTO BRAGUIM"),
   (S "roberto braguim", joaoAntonioMoji),
   (S "joao antonio", S "EDUARDO TUMA"),
   (S "eduardo tuma", S "RICARDO TORRES"),
   (S "domingos dissei", S "ROBERTO BRAGUIM")]

/-- The relator-to-chamber fallback table. -/
def camaraRelatorMap : List (Str × Str) :=
  [(S "domingos dissei", S "1c"),
   (S "ricardo torres", S "1c"),
   (S "roberto braguim", S "1c"),
   (S "joao antonio", S "2c"),
   (S "eduardo tuma", S "2c")]

/-- The source expand initials: a 1-3 ASCII-letter code found in the table
maps to the full name; anything else is uppercased unchanged. -/
def expandInitials (value : Str) : Str :=
  let s := wsNorm value
  if s = [] then []
  else
    let code := toUpperStr (s.filter isAsciiAlpha)
    if 1 ≤ code.length ∧ code.length ≤ 3 then
      match strAssoc nameMap code with
      | some full => full
      | none => toUpperStr s
    else toUpperStr s

/-- Collapse runs of underscores and whitespace to single spaces. -/
def underscoreWsCollapse : Str → Bool → Str
  | [], _ => []
  | c :: t, inRun =>
      if c = '_' || isSpaceCh c then
        if inRun then underscoreWsCollapse t true
        else ' ' :: underscoreWsCollapse t true
      else c :: underscoreWsCollapse t false

/-- The case-insensitive competency filename markers, in the alternation
order of the source pattern. -/
def filenameMarkers : List Str :=
  [S "PLENARIO_", S "1CAMARA_", S "2CAMARA_", S "CAMARA1_", S "CAMARA2_"]

/-- The source relator from filename: strip the competency marker, turn
underscore and whitespace runs into spaces, and expand initials. -/
def relatorFromFilename (stem : Str) : Str :=
  let upper := toUpperStr stem
  let stripped :=
    match filenameMarkers.find? (fun mk => startsWithStr upper mk) with
    | some mk => stem.drop mk.length
    | none => stem
  expandInitials (stripWs (underscoreWsCollapse stripped false))

/-- The source competencia from filename. -/
def competenciaFromFilename (stem : Str) : Str :=
  let u := toUpperStr stem
  if startsWithStr u (S "PLENARIO_") || startsWithStr u (S "PLENO_") then S "pleno"
  else if startsWithStr u (S "1CAMARA_") || startsWithStr u (S "CAMARA1_") then S "1c"
  else if startsWithStr u (S "2CAMARA_") || startsWithStr u (S "CAMARA2_") then S "2c"
  else []

/-- The source is reinclusao text: accent-fold, drop hyphens and spaces, and
look for the reinclusion tokens. -/
def isReincText (motivo : Str) : Bool :=
  if motivo = [] then false
  else
    let t := (stripAccentsLower motivo).filter (fun c => c ≠ '-' ∧ c ≠ ' ')
    containsSub t (S "reinclus") || containsSub t (S "reinc")

/-- The source competencia from marker. -/
def competenciaFromMarker (value : Str) : Str :=
  if value = [] then []
  else
    let txt := stripAccentsLower (cleanDocxText value)
    if containsSub txt (S "pleno") then S "pleno"
    else if containsSub txt (S "camara") then
      if containsSub txt (S "1") then S "1c"
      else if containsSub txt (S "2") then S "2c"
      else S "camara"
    else []

/-- The source normalize competencia. -/
def normalizeCompetencia (comp relator : Str) : Str :=
  let c := stripAccentsLower (wsNorm comp)
  if c = S "1c" ∨ c = S "2c" ∨ c = S "pleno" then c
  else if containsSub c (S "camara") then
    (strAssoc camaraRelatorMap (stripAccentsLower (wsNorm relator))).getD (S "1c")
  else S "pleno"

def procColTokens : List Str :=
  [S "processo", S "nÂº do processo", S "numero do processo",
   S "n. do processo", S "nÂº do proc."]

def objColTokens : List Str := [S "objeto", S "objeto de julgamento"]

def relColTokens : List Str := [S "relator", S "conselheiro", S "relator(a)"]

/-- The header scan of detect cols basic: an if-elif chain over the header
labels, lowercased, with substring tests. -/
def detectLoop :
    Nat → List Str → Nat × Nat × Option Nat × Option Nat × Option Nat →
    Nat × Nat × Option Nat × Option Nat × Option Nat
  | _, [], st => st
  | i, c :: t, (pr, ob, rl, rv, mo) =>
      let cl := toLowerStr c
      let st2 :=
        if procColTokens.any (fun k => containsSub cl k) then (i, ob, rl, rv, mo)
        else if objColTokens.any (fun k => containsSub cl k) then (pr, i, rl, rv, mo)
        else if relColTokens.any (fun k => containsSub cl k) then (pr, ob, some i, rv, mo)
        else if containsSub cl (S "revisor") then (pr, ob, rl, some i, mo)
        else if containsSub cl (S "motivo") then (pr, ob, rl, rv, some i)
        else (pr, ob, rl, rv, mo)
      detectLoop (i + 1) t st2

/-- The source detect cols basic, including the positional fallbacks (the
sheets reaching it always have at least ten columns after padding, so the
out-of-range clamps of the source are never taken with a negative index). -/
def detectColsBasic (cols : List Str) : Nat × Nat × Option Nat × Option Nat × Option Nat :=
  match detectLoop 0 cols (1, 3, none, none, none) with
  | (pr, ob, rl, rv, mo) =>
      let n := cols.length
      (if pr < n then pr else min 1 (n - 1),
       if ob < n then ob else min 3 (n - 1),
       if rl = none ∧ 7 ≤ n then some 6 else rl,
       if rv = none ∧ 8 ≤ n then some 7 else rv,
       if mo = none ∧ 10 ≤ n then some 9 else mo)

/-- Decimal digits of a small number (column pad names go up to ten). -/
def natStr (n : Nat) : Str :=
  if n < 10 then [digitChar n] else [digitChar (n / 10 % 10), digitChar (n % 10)]

/-- The competency marker latch scan over the first column. -/
def latchScan : Str → List (List Cell) → List Str
  | _, [] => []
  | cur, row :: rest =>
      let mk := match getCell row 0 with
                | some s => competenciaFromMarker s
                | none => []
      let cur2 := if mk ≠ [] then mk else cur
      cur2 :: latchScan cur2 rest

def findIdxFrom (p : Str → Bool) : Nat → List Str → Option Nat
  | _, [] => none
  | i, c :: t => if p c then some i else findIdxFrom p (i + 1) t

/-- One canonical ingested row. -/
structure CaseRow where
  Relator : Str
  Revisor : Str
  Processo : Str
  Objeto : Str
  Observacao : Str
  Motivo : Str
  IsReinc : Bool
  Competencia : Str
  Fonte : Str
deriving DecidableEq

def nthS (l : List Str) (i : Nat) : Str := (l.get? i).getD []

def nthB (l : List Bool) (i : Nat) : Bool := (l.get? i).getD false

/-- The reviewer fallback of the source: keep a nonblank nondash reviewer,
else look the relator up in the pairing table. -/
def revFallback (rel rev : Str) : Str :=
  let r := wsNorm rev
  if r ≠ [] ∧ r ≠ S "-" then r
  else (strAssoc duoRelatorRevisor (stripAccentsLower (wsNorm rel))).getD r

/-- The row-building stage of the source ler planilha: column detection,
whitespace normalization, the filename and pairing fallbacks, and the
competency latch, before the valid-row filter (stem is the filename without
extension). -/
def lerRecords (headers : List Str) (data : List (List Cell)) (stem : Str) :
    List CaseRow :=
  let padCount := if headers.length < 10 then 10 - headers.length else 0
  let headersP := headers ++
    (List.range padCount).map (fun k => S "_X" ++ natStr (headers.length + k + 1))
  let dataP := data.map (fun row => row ++ (List.range padCount).map (fun _ => some []))
  match detectColsBasic headersP with
  | (procIdx, objIdx, relIdx, revIdx, motIdx) =>
      let processos := dataP.map (fun row => wsCell (getCell row procIdx))
      let objetos0 := dataP.map (fun row => wsCell (getCell row objIdx))
      let obsIdx := findIdxFrom (fun c => containsSub (toLowerStr c) (S "observ")) 0 headersP
      let observacoes :=
        match obsIdx with
        | some i => dataP.map (fun row => wsCell (getCell row i))
        | none => dataP.map (fun _ => [])
      let compFile := competenciaFromFilename stem
      let competenciaRaw := (latchScan [] dataP).map (fun c => if c = [] then compFile else c)
      let assuntoIdx := findIdxFrom (fun c => containsSub (toLowerStr c) (S "assunto")) 0 headersP
      let objetos :=
        match assuntoIdx with
        | some i =>
            (List.range dataP.length).map (fun j =>
              if nthS objetos0 j = [] then wsCell (getCell (dataP.getD j []) i)
              else nthS objetos0 j)
        | none => objetos0
      let relatores :=
        match relIdx with
        | some i =>
            if i < headersP.length then
              let rel0 := dataP.map (fun row => expandInitials (cellRaw (getCell row i)))
              if rel0.all (fun s => s = []) then dataP.map (fun _ => relatorFromFilename stem)
              else rel0
            else dataP.map (fun _ => relatorFromFilename stem)
        | none => dataP.map (fun _ => relatorFromFilename stem)
      let rev0 :=
        match revIdx with
        | some i =>
            if i < headersP.length then
              dataP.map (fun row => expandInitials (cellRaw (getCell row i)))
            else dataP.map (fun _ => [])
        | none => dataP.map (fun _ => [])
      let revisores := (List.range dataP.length).map
        (fun j => revFallback (nthS relatores j) (nthS rev0 j))
      let motivos :=
        match motIdx with
        | some i =>
            if i < headersP.length then dataP.map (fun row => wsCell (getCell row i))
            else dataP.map (fun _ => [])
        | none => dataP.map (fun _ => [])
      let isReinc := motivos.map isReincText
      (List.range dataP.length).map (fun j =>
        { Relator := wsNorm (nthS relatores j),
          Revisor := (if wsNorm (nthS revisores j) = [] then S "-"
                      else wsNorm (nthS revisores j)),
          Processo := wsNorm (nthS processos j),
          Objeto := wsNorm (nthS objetos j),
          Observacao := wsNorm (nthS observacoes j),
          Motivo := wsNorm (nthS motivos j),
          IsReinc := nthB isReinc j,
          Competencia := wsNorm (nthS competenciaRaw j),
          Fonte := [] : CaseRow })

/-- The source ler planilha: build the rows, keep only those with a nonblank
process id and a nonblank subject, then normalize the competency and attach
the source filename (fname). -/
def lerPlanilha (headers : List Str) (data : List (List Cell)) (stem fname : Str) :
    List CaseRow :=
  ((lerRecords headers data stem).filter
      (fun r => r.Processo ≠ [] ∧ r.Objeto ≠ [])).map (fun r =>
    { r with Competencia := normalizeCompetencia r.Competencia r.Relator,
             Fonte := fname })

/-- One spreadsheet as pandas delivers it, plus its filename parts. -/
structure Planilha where
  headers : List Str
  data : List (List Cell)
  stem : Str
  name : Str

/-- A file in the input folder: a parsed spreadsheet or a read failure. -/
abbrev FileRead := Except Str Planilha

def readFrame : FileRead → Option (List CaseRow)
  | Except.ok p => some (lerPlanilha p.headers p.data p.stem p.name)
  | Except.error _ => none

/-- The relator presort order of coletar planilhas. -/
def ordemRelatores : List (Str × Nat) :=
  [(S "domingos dissei", 1), (S "ricardo torres", 2), (S "roberto braguim", 3),
   (S "joao antonio", 4), (S "eduardo tuma", 5)]

def relOrderKey (r : CaseRow) : Nat :=
  (assocLookup ordemRelatores (stripAccentsLower (wsNorm r.Relator))).getD 999

/-- Codepoint-lexicographic comparison of Python strings. -/
def strLt : Str → Str → Bool
  | [], [] => false
  | [], _ :: _ => true
  | _ :: _, [] => false
  | a :: as1, b :: bs =>
      if a.val < b.val then true
      else if b.val < a.val then false
      else strLt as1 bs

/-- Strict comparison on the presort key (order number, relator, revisor). -/
def rowKeyLt (x y : CaseRow) : Bool :=
  if relOrderKey x < relOrderKey y then true
  else if relOrderKey y < relOrderKey x then false
  else if strLt x.Relator y.Relator then true
  else if strLt y.Relator x.Relator then false
  else strLt x.Revisor y.Revisor

/-- Stable insertion preserving original order among equal keys. -/
def insertRow (x : CaseRow) : List CaseRow → List CaseRow
  | [] => [x]
  | y :: ys => if rowKeyLt y x then y :: insertRow x ys else x :: y :: ys

def sortRows : List CaseRow → List CaseRow
  | [] => []
  | x :: xs => insertRow x (sortRows xs)

/-- The source coletar planilhas: read every file, skipping (with a logged
warning) those that fail, and concatenate and presort the surviving frames;
an empty frame list yields the empty table. -/
def coletarPlanilhas (files : List FileRead) : List CaseRow :=
  if files.filterMap readFrame = [] then []
  else sortRows (files.filterMap readFrame).flatten

/-- The single fatal error message of the full-document build (stored in
mojibake form in the source). -/
def gerarMsg : Str := S "Nenhuma planilha vÃ¡lida encontrada para unificaÃ§Ã£o."

/-- The source gerar docx unificado up to its emptiness gate: the collected
row table is returned for document assembly, and the single RuntimeError is
raised exactly when the table is empty. -/
def gerarDocxUnificadoRows (files : List FileRead) : Except Str (List CaseRow) :=
  if coletarPlanilhas files = [] then Except.error gerarMsg
  else Except.ok (coletarPlanilhas files)

/-- The source gerar docx vazio: a header-only document with the normalized
session metadata (when given) and the no-items marker; it performs no
emptiness check and never fails. -/
def gerarDocxVazioResult (meta : Option SessionMeta) (envAb envEn : Str) (now : PyDate) :
    Except Str (Option SessionMeta × Str) :=
  Except.ok (meta.map (fun mm => normalizar mm envAb envEn now), S "(Sem itens)")

theorem lerPlanilha_mem_fields (headers : List Str) (data : List (List Cell))
    (stem fname : Str) (r : CaseRow) (hr : r ∈ lerPlanilha headers data stem fname) :
    r.Processo ≠ [] ∧ r.Objeto ≠ [] := by
  unfold lerPlanilha at hr
  rw [List.mem_map] at hr
  obtain ⟨r0, hr0, rfl⟩ := hr
  rw [List.mem_filter] at hr0
  exact of_decide_eq_true hr0.2

theorem mem_insertRow (a x : CaseRow) (l : List CaseRow) :
    a ∈ insertRow x l ↔ a = x ∨ a ∈ l := by
  induction l with
  | nil => simp [insertRow]
  | cons y ys ih =>
      by_cases h : rowKeyLt y x = true
      · simp only [insertRow, if_pos h, List.mem_cons, ih]
        tauto
      · simp only [insertRow, if_neg h, List.mem_cons]

theorem mem_sortRows (a : CaseRow) (l : List CaseRow) :
    a ∈ sortRows l ↔ a ∈ l := by
  induction l with
  | nil => simp [sortRows]
  | cons x xs ih => simp [sortRows, mem_insertRow, ih]

theorem coletar_mem_fields (files : List FileRead) (r : CaseRow)
    (hr : r ∈ coletarPlanilhas files) : r.Processo ≠ [] ∧ r.Objeto ≠ [] := by
  unfold coletarPlanilhas at hr
  by_cases h : files.filterMap readFrame = []
  · rw [if_pos h] at hr
    exact absurd hr (List.not_mem_nil r)
  · rw [if_neg h, mem_sortRows, List.mem_flatten] at hr
    obtain ⟨frame, hfr, hrf⟩ := hr
    rw [List.mem_filterMap] at hfr
    obtain ⟨f, _, hread⟩ := hfr
    cases f with
    | ok p =>
        simp only [readFrame, Option.some.injEq] at hread
        exact lerPlanilha_mem_fields p.headers p.data p.stem p.name r (hread ▸ hrf)
    | error e => simp [readFrame] at hread

/-- C8: every row surviving spreadsheet ingestion has a nonblank process id
and a nonblank subject text, both for a single spreadsheet (ler planilha)
and for the combined folder extraction feeding everything downstream (coletar
planilhas); rows missing either value are filtered out. -/
theorem c8_ingestion_nonempty :
    (∀ (headers : List Str) (data : List (List Cell)) (stem fname : Str),
       ∀ r ∈ lerPlanilha headers data stem fname, r.Processo ≠ [] ∧ r.Objeto ≠ []) ∧
    (∀ files : List FileRead,
       ∀ r ∈ coletarPlanilhas files, r.Processo ≠ [] ∧ r.Objeto ≠ []) :=
  ⟨fun headers data stem fname r hr => lerPlanilha_mem_fields headers data stem fname r hr,
   fun files r hr => coletar_mem_fields files r hr⟩

def c8Headers : List Str := [S "Processo", S "Objeto", S "Relator"]

def c8Data : List (List Cell) :=
  [[some (S "TC 1.234/2020"), some (S "Contrato de obra"), some (S "ET")],
   [some [], some (S "Algo"), some (S "DD")],
   [some (S "TC 9/2021"), some [], some (S "JA")]]

def c8Row : CaseRow :=
  ⟨S "EDUARDO TUMA", S "RICARDO TORRES", S "TC 1.234/2020", S "Contrato de obra",
   [], [], false, S "pleno", S "PLENARIO_ET.xlsx"⟩

theorem c8_ingestion_nonempty_witness :
    c8Row ∈ lerPlanilha c8Headers c8Data (S "PLENARIO_ET") (S "PLENARIO_ET.xlsx") ∧
    c8Row.Processo ≠ [] ∧ c8Row.Objeto ≠ [] :=
  ⟨by decide,
   c8_ingestion_nonempty.1 c8Headers c8Data (S "PLENARIO_ET") (S "PLENARIO_ET.xlsx")
     c8Row (by decide)⟩

/-- C9: a file whose read fails contributes nothing and does not disturb the
extraction of the remaining files; the full-document build returns its single
error message exactly when the combined extraction is empty and otherwise
succeeds with the collected rows; and the header-only document build always
succeeds, empty agenda included. -/
theorem c9_error_handling :
    (∀ (fs1 fs2 : List FileRead) (e : Str),
       coletarPlanilhas (fs1 ++ Except.error e :: fs2) = coletarPlanilhas (fs1 ++ fs2)) ∧
    (∀ files : List FileRead,
       (gerarDocxUnificadoRows files = Except.error gerarMsg ↔
          coletarPlanilhas files = []) ∧
       (coletarPlanilhas files ≠ [] →
          gerarDocxUnificadoRows files = Except.ok (coletarPlanilhas files))) ∧
    (∀ (meta : Option SessionMeta) (envAb envEn : Str) (now : PyDate),
       gerarDocxVazioResult meta envAb envEn now =
         Except.ok (meta.map (fun mm => normalizar mm envAb envEn now), S "(Sem itens)")) := by
  refine ⟨fun fs1 fs2 e => ?_, fun files => ⟨?_, fun hne => ?_⟩, fun meta ea ee now => rfl⟩
  · simp [coletarPlanilhas, List.filterMap_append, List.filterMap_cons, readFrame]
  · by_cases h : coletarPlanilhas files = [] <;> simp [gerarDocxUnificadoRows, h]
  · simp [gerarDocxUnificadoRows, hne]

def c9Plan : Planilha :=
  ⟨c8Headers, c8Data, S "PLENARIO_ET", S "PLENARIO_ET.xlsx"⟩

theorem c9_error_handling_witness :
    coletarPlanilhas [Except.error (S "boom"), Except.ok c9Plan] =
      coletarPlanilhas [Except.ok c9Plan] ∧
    gerarDocxUnificadoRows ([] : List FileRead) = Except.error gerarMsg ∧
    gerarDocxUnificadoRows [Except.ok c9Plan] =
      Except.ok (coletarPlanilhas [Except.ok c9Plan]) ∧
    gerarDocxVazioResult none [] [] ⟨2025, 1, 1⟩ = Except.ok (none, S "(Sem itens)") :=
  ⟨c9_error_handling.1 [] [Except.ok c9Plan] (S "boom"),
   (c9_error_handling.2.1 []).1.mpr (by decide),
   (c9_error_handling.2.1 [Except.ok c9Plan]).2 (by decide),
   c9_error_handling.2.2 none [] [] ⟨2025, 1, 1⟩⟩

end Pauta
